import Mathlib

/-!
# Job-control shell: job table, child reaper, launcher

Shallow embedding of `src/jobs.c` and `src/shell.c`.

* C integers (`pid_t`, `int` wait-status words, descriptors) are `Int`.
* The global array `jobs[0 .. njobmax-1]` always has `njobmax ≥ 1` (the static
  initialiser is `1`, `allocjob` only increments it), so the table is the
  foreground slot `jobs[FG]` followed by the list of background slots.
* Undefined behaviour of the C code (failed `assert`, read through `proc[-1]`,
  `strcpy` from `NULL` or past the buffer) is the result `none`.
-/

namespace Shell

/-! ## Constants and types of `shell.h` (header not part of the sources) -/

/-- Modelled from the spec: the three process/job states of `shell.h`. `FINISHED` is the
enumerator with value `0`, the state found in zero-filled memory. -/
inductive State where
  | FINISHED
  | RUNNING
  | STOPPED
deriving DecidableEq, Repr

/-- Modelled from the spec: the filter argument of `watchjobs`: `ALL` or one state. -/
inductive Which where
  | ALL
  | only (s : State)
deriving DecidableEq, Repr

/-- Modelled from the spec: index of the foreground slot. -/
def FG : Nat := 0

/-- Modelled from the spec: index of the first background slot. -/
def BG : Nat := 1

/-! ## Wait-status words (`<sys/wait.h>`, Linux encoding) -/

/-- The macro `WTERMSIG(status)`: `status & 0x7f`. -/
def WTERMSIG (status : Int) : Int := status % 128

/-- The macro `WEXITSTATUS(status)`: `(status & 0xff00) >> 8`. -/
def WEXITSTATUS (status : Int) : Int := (status / 256) % 256

/-- The macro `WIFEXITED(status)`: `WTERMSIG(status) == 0`. -/
def WIFEXITED (status : Int) : Bool := WTERMSIG status == 0

/-- The macro `WIFSIGNALED(status)`: `((signed char)((status & 0x7f) + 1) >> 1) > 0`. -/
def WIFSIGNALED (status : Int) : Bool :=
  let x := status % 128 + 1
  let sc := if x ≥ 128 then x - 256 else x
  decide (sc / 2 > 0)

/-- The macro `WIFSTOPPED(status)`: `(status & 0xff) == 0x7f`. -/
def WIFSTOPPED (status : Int) : Bool := status % 256 == 127

/-- The macro `WIFCONTINUED(status)`: `status == 0xffff`. -/
def WIFCONTINUED (status : Int) : Bool := status == 65535

/-! ## Data model of `jobs.c` -/

/-- The C struct `proc_t`. -/
structure proc_t where
  pid : Int
  state : State
  exitcode : Int
deriving DecidableEq, Repr

/-- The C struct `job_t`; `nproc` is the length of `proc`, `command == NULL` is `none`,
`tmodes` is an uninterpreted terminal-mode word. -/
structure job_t where
  pgid : Int
  proc : List proc_t
  tmodes : Nat
  state : State
  command : Option String
deriving DecidableEq, Repr

/-- A zero-filled `job_t` (`calloc`, `memset(.., 0, sizeof(job_t))`). -/
def zero_job : job_t :=
  { pgid := 0, proc := [], tmodes := 0, state := State.FINISHED, command := none }

/-- The globals `jobs` and `njobmax`: slot `FG` and the background slots `BG ..`. -/
structure JobTable where
  fg : job_t
  bg : List job_t
deriving DecidableEq, Repr

/-- All slots `jobs[0], .., jobs[njobmax-1]` in index order. -/
def JobTable.slots (t : JobTable) : List job_t := t.fg :: t.bg

/-- The global `njobmax`. -/
def njobmax (t : JobTable) : Nat := t.bg.length + 1

/-- Read of `jobs[j]`, `none` outside the array. -/
def JobTable.get? (t : JobTable) (j : Nat) : Option job_t :=
  match j with
  | 0 => some t.fg
  | k + 1 => t.bg[k]?

/-- Write of `jobs[j]` (no effect outside the array). -/
def JobTable.set (t : JobTable) (j : Nat) (x : job_t) : JobTable :=
  match j with
  | 0 => { t with fg := x }
  | k + 1 => { t with bg := t.bg.set k x }

/-- The table built by `initjobs`: `calloc(sizeof(job_t), 1)`. -/
def initjobs : JobTable := { fg := zero_job, bg := [] }

/-- Aggregate state of a job (spec §3): RUNNING if any process is RUNNING, else STOPPED if
any is STOPPED, else FINISHED. -/
def agg (states : List State) : State :=
  if State.RUNNING ∈ states then State.RUNNING
  else if State.STOPPED ∈ states then State.STOPPED
  else State.FINISHED

/-! ## `sigchld_handler`: one iteration of the `waitpid` loop -/

/-- Body of the inner loop for one process: the (possibly updated) process record. -/
def reap_proc (pid status : Int) (curr_proc : proc_t) : proc_t :=
  if pid = curr_proc.pid then
    let p := { curr_proc with exitcode := -1 }
    if WIFEXITED status || WIFSIGNALED status then
      { p with state := State.FINISHED, exitcode := status }
    else if WIFCONTINUED status then
      { p with state := State.RUNNING }
    else if WIFSTOPPED status then
      { p with state := State.STOPPED }
    else p
  else curr_proc

/-- The inner loop `for (j = 0; j < nproc; j++)` over the processes of one job, threading the
flags `has_running_p` and `has_stopped_p`. -/
def reap_procs (pid status : Int) :
    List proc_t → Bool → Bool → List proc_t × Bool × Bool
  | [], has_running_p, has_stopped_p => ([], has_running_p, has_stopped_p)
  | curr_proc :: rest, has_running_p, has_stopped_p =>
    if curr_proc.state = State.FINISHED then
      let r := reap_procs pid status rest has_running_p has_stopped_p
      (curr_proc :: r.1, r.2.1, r.2.2)
    else
      let p := reap_proc pid status curr_proc
      let has_running_p1 := if p.state = State.RUNNING then true else has_running_p
      let has_stopped_p1 :=
        if p.state = State.RUNNING then has_stopped_p
        else if p.state = State.STOPPED then true else has_stopped_p
      let r := reap_procs pid status rest has_running_p1 has_stopped_p1
      (p :: r.1, r.2.1, r.2.2)

/-- Body of the outer loop for one slot `jobs[i]`. -/
def reap_job (pid status : Int) (job : job_t) : job_t :=
  if job.pgid = 0 then job
  else
    let r := reap_procs pid status job.proc false false
    let st :=
      if r.2.1 then State.RUNNING
      else if r.2.2 then State.STOPPED
      else State.FINISHED
    { job with proc := r.1, state := st }

/-- One iteration of `while ((pid = waitpid(..)) > 0)` in `sigchld_handler`, for the
returned `pid` and wait-status `status`: the loop `for (i = 0; i < njobmax; i++)`. -/
def sigchld_step (pid status : Int) (t : JobTable) : JobTable :=
  { fg := reap_job pid status t.fg, bg := t.bg.map (reap_job pid status) }

/-- The whole handler: the reaper steps for the `(pid, status)` pairs that `waitpid`
returns before it reports that no child is left to reap. -/
def sigchld_handler (reaped : List (Int × Int)) (t : JobTable) : JobTable :=
  reaped.foldl (fun acc ps => sigchld_step ps.1 ps.2 acc) t

/-! ## Job table operations -/

/-- The helper `exitcode(job)`: `job->proc[job->nproc - 1].exitcode`; reading `proc[-1]`
of a job without processes is undefined. -/
def exitcode (job : job_t) : Option Int :=
  match job.proc.getLast? with
  | some p => some p.exitcode
  | none => none

/-- The search loop of `allocjob`: first index `j ≥ start` (over the slots `rest` that
begin at index `start`) with `pgid == 0`. -/
def find_free : List job_t → Nat → Option Nat
  | [], _ => none
  | job :: rest, j => if job.pgid = 0 then some j else find_free rest (j + 1)

/-- The function `allocjob`: a free background slot, or a new zero-filled slot appended. -/
def allocjob (t : JobTable) : JobTable × Nat :=
  match find_free t.bg BG with
  | some j => (t, j)
  | none => ({ t with bg := t.bg ++ [zero_job] }, njobmax t)

/-- The initial state that `addjob` writes into the chosen slot. -/
def fresh_job (shell_tmodes : Nat) (pgid : Int) : job_t :=
  { pgid := pgid, proc := [], tmodes := shell_tmodes, state := State.RUNNING,
    command := none }

/-- The function `addjob(pgid, bg)`; `shell_tmodes` is the saved terminal mode global. -/
def addjob (shell_tmodes : Nat) (t : JobTable) (pgid : Int) (bg : Bool) : JobTable × Nat :=
  let r := if bg then allocjob t else (t, FG)
  (r.1.set r.2 (fresh_job shell_tmodes pgid), r.2)

/-- The function `deljob`: `assert(job->state == FINISHED)`, then the slot is released. -/
def deljob (job : job_t) : Option job_t :=
  if job.state = State.FINISHED then
    some { job with pgid := 0, command := none, proc := [] }
  else none

/-- The function `movejob(from, to)`: `assert(jobs[to].pgid == 0)`, `memcpy`, `memset`. -/
def movejob (t : JobTable) (src dst : Nat) : Option JobTable :=
  match t.get? src, t.get? dst with
  | some a, some b =>
    if b.pgid = 0 then some ((t.set dst a).set src zero_job) else none
  | _, _ => none

/-- Modelled from the spec: the string helper `strapp(&dst, src)` of the support library
appends `src` to `*dst`, starting from the empty text when `*dst` is `NULL`. -/
def strapp (cmd : Option String) (s : String) : Option String :=
  match cmd with
  | none => some s
  | some c => some (c ++ s)

/-- The loop of `mkcommand` over `argv[1], argv[2], ..`. -/
def mkcommand_rest (cmd : Option String) : List String → Option String
  | [] => cmd
  | w :: ws => mkcommand_rest (strapp (strapp cmd " ") w) ws

/-- The function `mkcommand(&cmd, argv)`; `argv` is the list of words before the
terminating `NULL`; `strapp(cmdp, argv[0])` with an empty `argv` passes `NULL`. -/
def mkcommand (cmd : Option String) (argv : List String) : Option (Option String) :=
  let c := if cmd.isSome then strapp cmd " | " else cmd
  match argv with
  | [] => none
  | w :: ws => some (mkcommand_rest (strapp c w) ws)

/-- The function `addproc(j, pid, argv)`: `assert(j < njobmax)`, `allocproc`, `mkcommand`. -/
def addproc (t : JobTable) (j : Nat) (pid : Int) (argv : List String) : Option JobTable :=
  match t.get? j with
  | none => none
  | some job =>
    match mkcommand job.command argv with
    | none => none
    | some c =>
      some (t.set j { job with
        proc := job.proc ++ [{ pid := pid, state := State.RUNNING, exitcode := -1 }],
        command := c })

/-- The function `jobstate(j, statusp)`: the table afterwards, the returned state and the
value of `*statusp` afterwards (argument `status` is its value before the call). -/
def jobstate (t : JobTable) (j : Nat) (status : Int) : Option (JobTable × State × Int) :=
  match t.get? j with
  | none => none
  | some job =>
    if job.state = State.FINISHED then
      match exitcode job, deljob job with
      | some e, some job1 => some (t.set j job1, job.state, e)
      | _, _ => none
    else some (t, job.state, status)

/-- The function `jobcmd(j)`: `assert(j < njobmax)`, then `jobs[j].command`. -/
def jobcmd (t : JobTable) (j : Nat) : Option (Option String) :=
  match t.get? j with
  | none => none
  | some job => some job.command

/-- Signals sent by `Kill`. -/
inductive Sig where
  | SIGTERM
  | SIGCONT
deriving DecidableEq, Repr

/-- The function `killjob(j)`: the returned flag and the `Kill(-pgid, sig)` calls made, in
order; the job table is not written. -/
def killjob (t : JobTable) (j : Nat) : Bool × List (Int × Sig) :=
  match t.get? j with
  | none => (false, [])
  | some job =>
    if job.state = State.FINISHED then (false, [])
    else
      (true, (-job.pgid, Sig.SIGTERM) ::
        (if job.state = State.STOPPED then [(-job.pgid, Sig.SIGCONT)] else []))

/-- The text printed by one iteration of `watchjobs` for slot `j` with saved command `cmd`,
observed `state` and wait-status `exitcode`. -/
def report (which : Which) (j : Nat) (cmd : String) (state : State) (exitcode : Int) : String :=
  if which = Which.ALL ∨ which = Which.only state then
    match state with
    | State.FINISHED =>
      if WIFEXITED exitcode then
        "[" ++ toString j ++ "] exited '" ++ cmd ++ "', status=" ++
          toString (WEXITSTATUS exitcode) ++ "\n"
      else
        "[" ++ toString j ++ "] killed '" ++ cmd ++ "' by signal " ++
          toString (WTERMSIG exitcode) ++ "\n"
    | State.RUNNING => "[" ++ toString j ++ "] running '" ++ cmd ++ "'\n"
    | State.STOPPED => "[" ++ toString j ++ "] suspended '" ++ cmd ++ "'\n"
  else ""

/-- The loop `for (j = BG; j < njobmax; j++)` of `watchjobs`, from index `j` on, with `out`
the text printed so far. `MAXLINE` is the size of the buffer that `strcpy` fills with the
command (a constant of `shell.h`); `fuel` bounds the number of iterations. -/
def watchjobs_loop (MAXLINE : Nat) (which : Which) :
    Nat → Nat → JobTable → String → Option (JobTable × String)
  | 0, _, t, out => some (t, out)
  | fuel + 1, j, t, out =>
    match t.get? j with
    | none => some (t, out)
    | some job =>
      if job.pgid = 0 then watchjobs_loop MAXLINE which fuel (j + 1) t out
      else
        match job.command with
        | none => none
        | some cmd =>
          if cmd.utf8ByteSize + 1 ≤ MAXLINE then
            match jobstate t j 0 with
            | none => none
            | some (t1, state, exitcode) =>
              watchjobs_loop MAXLINE which fuel (j + 1) t1
                (out ++ report which j cmd state exitcode)
          else none

/-- The function `watchjobs(which)`: the table afterwards and the text printed by `msg`. -/
def watchjobs (MAXLINE : Nat) (which : Which) (t : JobTable) : Option (JobTable × String) :=
  watchjobs_loop MAXLINE which (njobmax t - BG) BG t ""

/-- The loop `while (true)` of `monitorjob`. Each element of `suspensions` is one return of
`Sigsuspend(mask)`: the `(pid, status)` pairs reaped by the handler that ran meanwhile (none
for a signal other than the child-status signal). When the list is used up and the job is
still RUNNING the shell stays suspended: no result. -/
def monitorjob_loop :
    List (List (Int × Int)) → JobTable → Int → Option (JobTable × State × Int)
  | [], t, exitcode =>
    match jobstate t FG exitcode with
    | none => none
    | some (t1, state, e) =>
      if state = State.FINISHED ∨ state = State.STOPPED then some (t1, state, e) else none
  | reaped :: rest, t, exitcode =>
    match jobstate t FG exitcode with
    | none => none
    | some (t1, state, e) =>
      if state = State.FINISHED ∨ state = State.STOPPED then some (t1, state, e)
      else monitorjob_loop rest (sigchld_handler reaped t1) e

/-- The function `monitorjob(mask)`: the table afterwards and the returned `exitcode`.
The calls of `setfgpgrp` act on the terminal only. -/
def monitorjob (suspensions : List (List (Int × Int))) (t : JobTable) :
    Option (JobTable × Int) :=
  match monitorjob_loop suspensions t 0 with
  | none => none
  | some (t1, state, e) =>
    if state = State.STOPPED then
      let r := allocjob t1
      match movejob r.1 FG r.2 with
      | none => none
      | some t2 => some (t2, e)
    else some (t1, e)

/-- The loop `for (j = njobmax - 1; j > 0 && jobs[j].state == FINISHED; j--)` of
`resumejob`, from index `j` downwards. -/
def resume_scan (t : JobTable) : Nat → Nat
  | 0 => 0
  | j + 1 =>
    match t.get? (j + 1) with
    | some job => if job.state = State.FINISHED then resume_scan t j else j + 1
    | none => j + 1

/-- The function `resumejob(j, bg, mask)`: the table afterwards and the returned flag;
`fg` stands for `bg == FG`. Signals, messages and terminal calls leave the table alone. -/
def resumejob (suspensions : List (List (Int × Int))) (t : JobTable) (j : Int) (fg : Bool) :
    Option (JobTable × Bool) :=
  let j1 : Nat := if j < 0 then resume_scan t (njobmax t - 1) else j.toNat
  match t.get? j1 with
  | none => some (t, false)
  | some job =>
    if job.state = State.FINISHED then some (t, false)
    else
      let t1 := t.set j1 { job with state := State.RUNNING }
      if fg then
        if t1.fg.pgid = 0 then
          match movejob t1 j1 FG with
          | none => none
          | some t2 =>
            match monitorjob suspensions t2 with
            | none => none
            | some (t3, _) => some (t3, true)
        else none
      else some (t1, true)

/-! ## Specification-side definitions -/

/-- What the inner loop of the reaper does to one process: FINISHED processes are skipped. -/
def reap_one (pid status : Int) (p : proc_t) : proc_t :=
  if p.state = State.FINISHED then p else reap_proc pid status p

/-- The job-state rule for one slot: a non-free job carries the aggregate of its processes. -/
def job_consistent (J : job_t) : Prop :=
  J.pgid ≠ 0 → J.state = agg (J.proc.map (·.state))

/-- The job-state invariant of the whole table. -/
def state_invariant (t : JobTable) : Prop :=
  ∀ J ∈ t.slots, job_consistent J

/-- One operation on the job table, as listed in the invariant of spec §8: `addjob`,
`addproc`, `movejob`, `jobstate`/`deljob`, `resumejob`, `killjob` (which writes nothing),
`watchjobs` and one reaper step. -/
inductive Step : JobTable → JobTable → Prop where
  | addjob (tm : Nat) (t : JobTable) (pgid : Int) (bg : Bool) :
      Step t (addjob tm t pgid bg).1
  | addproc (t : JobTable) (j : Nat) (pid : Int) (argv : List String) (t1 : JobTable) :
      addproc t j pid argv = some t1 → Step t t1
  | movejob (t : JobTable) (src dst : Nat) (t1 : JobTable) :
      movejob t src dst = some t1 → Step t t1
  | jobstate (t : JobTable) (j : Nat) (status : Int) (r : JobTable × State × Int) :
      jobstate t j status = some r → Step t r.1
  | resumejob (susp : List (List (Int × Int))) (t : JobTable) (j : Int) (fg : Bool)
      (r : JobTable × Bool) :
      resumejob susp t j fg = some r → Step t r.1
  | killjob (t : JobTable) (j : Nat) (r : Bool × List (Int × Sig)) :
      killjob t j = r → Step t t
  | watchjobs (MAXLINE : Nat) (which : Which) (t : JobTable) (r : JobTable × String) :
      watchjobs MAXLINE which t = some r → Step t r.1
  | reaper (pid status : Int) (t : JobTable) :
      Step t (sigchld_step pid status t)

/-- Tables reachable from the initial table by the operations of `Step`. -/
inductive Reachable : JobTable → Prop where
  | init : Reachable initjobs
  | step (t t1 : JobTable) : Reachable t → Step t t1 → Reachable t1

/-- The operations under which the job-state rule is kept: as `Step`, but `addjob` only
together with the `addproc` that follows it, `addproc` only on a free slot or a job whose
state is RUNNING, `resumejob` only into the foreground or followed by a reaper step. -/
inductive KeptStep : JobTable → JobTable → Prop where
  | launch (tm : Nat) (t : JobTable) (pgid : Int) (bg : Bool) (pid : Int)
      (argv : List String) (t1 : JobTable) :
      addproc (addjob tm t pgid bg).1 (addjob tm t pgid bg).2 pid argv = some t1 →
      KeptStep t t1
  | addproc (t : JobTable) (j : Nat) (pid : Int) (argv : List String) (J : job_t)
      (t1 : JobTable) :
      t.get? j = some J → (J.pgid = 0 ∨ J.state = State.RUNNING) →
      addproc t j pid argv = some t1 → KeptStep t t1
  | movejob (t : JobTable) (src dst : Nat) (t1 : JobTable) :
      movejob t src dst = some t1 → KeptStep t t1
  | jobstate (t : JobTable) (j : Nat) (status : Int) (r : JobTable × State × Int) :
      jobstate t j status = some r → KeptStep t r.1
  | resumejob_fg (susp : List (List (Int × Int))) (t : JobTable) (j : Int)
      (r : JobTable × Bool) :
      resumejob susp t j true = some r → KeptStep t r.1
  | resumejob_bg_reaped (susp : List (List (Int × Int))) (t : JobTable) (j : Int)
      (r : JobTable × Bool) (pid status : Int) :
      resumejob susp t j false = some r → KeptStep t (sigchld_step pid status r.1)
  | killjob (t : JobTable) (j : Nat) (r : Bool × List (Int × Sig)) :
      killjob t j = r → KeptStep t t
  | watchjobs (MAXLINE : Nat) (which : Which) (t : JobTable) (r : JobTable × String) :
      watchjobs MAXLINE which t = some r → KeptStep t r.1
  | reaper (pid status : Int) (t : JobTable) :
      KeptStep t (sigchld_step pid status t)

/-- Tables reachable from the initial table by the operations of `KeptStep`. -/
inductive KeptReachable : JobTable → Prop where
  | init : KeptReachable initjobs
  | step (t t1 : JobTable) : KeptReachable t → KeptStep t t1 → KeptReachable t1

/-- The rule with the foreground job possibly just marked RUNNING by `resumejob`. -/
def resumed_invariant (t : JobTable) : Prop :=
  (∀ J ∈ t.bg, job_consistent J) ∧ (job_consistent t.fg ∨ t.fg.state = State.RUNNING)

/-- The path `addjob(7, bg)`, `addproc`, a reaper step reporting the child stopped, and
`resumejob(1, bg)`: the job is marked RUNNING while its only process is still STOPPED. -/
def resumed_table : JobTable :=
  { fg := zero_job,
    bg := [{ pgid := 7, proc := [{ pid := 7, state := State.STOPPED, exitcode := -1 }],
             tmodes := 0, state := State.RUNNING, command := some "cat" }] }

/-- The table after the handlers that ran during the given returns of `Sigsuspend`. -/
def after_suspensions (susp : List (List (Int × Int))) (t : JobTable) : JobTable :=
  susp.foldl (fun acc reaped => sigchld_handler reaped acc) t

/-- The line that spec §4.7 prescribes for slot `idx` holding job `J`: by the observed
state, and for a FINISHED job by the wait-status of its last stage. -/
def spec_line (idx : Nat) (J : job_t) : String :=
  let cmd := J.command.getD ""
  match J.state with
  | State.RUNNING => "[" ++ toString idx ++ "] running '" ++ cmd ++ "'\n"
  | State.STOPPED => "[" ++ toString idx ++ "] suspended '" ++ cmd ++ "'\n"
  | State.FINISHED =>
    match J.proc.getLast? with
    | none => ""
    | some p =>
      if WIFEXITED p.exitcode then
        "[" ++ toString idx ++ "] exited '" ++ cmd ++ "', status=" ++
          toString (WEXITSTATUS p.exitcode) ++ "\n"
      else if WIFSIGNALED p.exitcode then
        "[" ++ toString idx ++ "] killed '" ++ cmd ++ "' by signal " ++
          toString (WTERMSIG p.exitcode) ++ "\n"
      else ""

/-- Whether spec §4.7 reports a slot: it is not free and the filter is ALL or its state. -/
def reported (which : Which) (J : job_t) : Bool :=
  decide (J.pgid ≠ 0 ∧ (which = Which.ALL ∨ which = Which.only J.state))

/-- The text of spec §4.7: one line per reported background slot, in index order. -/
def spec_report (which : Which) (t : JobTable) : String :=
  ((((List.range' BG t.bg.length).zip t.bg).filter (fun x => reported which x.2)).map
    (fun x => spec_line x.1 x.2)).foldr (fun line text => line ++ text) ""

/-- What `watchjobs` needs of a background slot: a non-free slot has a command text that
fits the `MAXLINE` buffer and, when FINISHED, a last process whose stored wait-status is
an exit or a termination by signal. -/
def reportable (MAXLINE : Nat) (J : job_t) : Prop :=
  J.pgid ≠ 0 →
    (∃ cmd, J.command = some cmd ∧ cmd.utf8ByteSize + 1 ≤ MAXLINE) ∧
    (J.state = State.FINISHED →
      ∃ p, J.proc.getLast? = some p ∧
        (WIFEXITED p.exitcode = true ∨ WIFSIGNALED p.exitcode = true))


/-! ## `shell.c`: tokens, descriptors and the environment -/

/-- Modelled from the spec: a token of the tokenizer (`token_t` of `shell.h`): the end
marker `T_NULL`, one of the sentinel markers, or a word. -/
inductive token_t where
  | T_NULL
  | T_INPUT
  | T_OUTPUT
  | T_PIPE
  | T_BGJOB
  | word (s : String)
deriving DecidableEq, Repr

/-- Ways in which the shell process stops instead of returning from a call. -/
inductive Abort where
  | app_error (msg : String)
  | unix_error
  | undefined
  | child
deriving DecidableEq, Repr

/-- What the shell cannot decide itself. `fork_pid n` is the value that the `n`-th call of
`Fork` returns in the shell, `can_open` tells whether `Open` succeeds on a file name,
`builtin_command argv jobs` is the exit code of the built-in table (negative: not a
built-in) and the job table it leaves, `shell_tmodes` the saved terminal modes. -/
structure Env where
  fork_pid : Nat → Int
  can_open : String → Bool
  builtin_command : List token_t → JobTable → Int × JobTable
  shell_tmodes : Nat

/-- A child forked by the shell: its pid, the process group it is put in, the descriptors
it installs as standard input and output (`-1`: none), and the `argv` it runs (the tokens
from the start of its token vector up to the first `T_NULL`). -/
structure Child where
  pid : Int
  pgid : Int
  input : Int
  output : Int
  argv : List token_t
  bg : Bool
deriving DecidableEq, Repr

/-- State of the shell process: the set of open descriptors, the job table, the number of
`Fork` calls made, the children forked (latest last), the pipes made by `mkpipe` as
`(read end, write end)` (latest last), and the text printed by `msg`. -/
structure World where
  fds : List Int
  jobs : JobTable
  nfork : Nat
  children : List Child
  pipes : List (Int × Int)
  out : String
deriving DecidableEq, Repr

/-- Search for the lowest descriptor number not in `fds`, starting at `fd`. -/
def lowest_free_from (fds : List Int) : Nat → Int → Int
  | 0, fd => fd
  | fuel + 1, fd => if fd ∈ fds then lowest_free_from fds fuel (fd + 1) else fd

/-- The descriptor that the kernel hands out next: the lowest number not in use. -/
def lowest_free (fds : List Int) : Int := lowest_free_from fds fds.length 0

/-- The wrapper `Close(fd)`: closing a descriptor that is not open is a fatal error. -/
def Close (fds : List Int) (fd : Int) : Except Abort (List Int) :=
  if fd ∈ fds then Except.ok (fds.erase fd) else Except.error Abort.unix_error

/-- The function `MaybeClose(fdp)`: the open set and the value of `*fdp` afterwards. -/
def MaybeClose (fds : List Int) (fd : Int) : Except Abort (List Int × Int) :=
  if fd < 0 then Except.ok (fds, fd)
  else
    match Close fds fd with
    | Except.ok fds1 => Except.ok (fds1, -1)
    | Except.error e => Except.error e

/-- The wrapper `Open(path, ..)` applied to the token used as path: a word is a file name
and gets the lowest free descriptor when it can be opened; failure is fatal, and a token
that is not a word is not a valid string address. `none` is a read outside the array. -/
def Open (env : Env) (fds : List Int) (path : Option token_t) :
    Except Abort (List Int × Int) :=
  match path with
  | none => Except.error Abort.undefined
  | some (token_t.word s) =>
    if env.can_open s then Except.ok (lowest_free fds :: fds, lowest_free fds)
    else Except.error Abort.unix_error
  | some _ => Except.error Abort.unix_error

/-- The values that `do_redir` reads and writes through its pointers: the token array, the
descriptors `*inputp` and `*outputp`, and the set of open descriptors. -/
structure Redir where
  token : List token_t
  input : Int
  output : Int
  fds : List Int
deriving DecidableEq, Repr

/-- The loop `for (i = 0; i < ntokens; i++)` of `do_redir`, from index `i` with count `n`;
`fuel` bounds the number of iterations. -/
def do_redir_loop (env : Env) (ntokens : Nat) :
    Nat → Nat → Nat → Redir → Except Abort (Redir × Nat)
  | 0, _, n, r => Except.ok (r, n)
  | fuel + 1, i, n, r =>
    if i < ntokens then
      match r.token[i]? with
      | none => Except.error Abort.undefined
      | some token_t.T_INPUT =>
        match MaybeClose r.fds r.input with
        | Except.error e => Except.error e
        | Except.ok (fds1, _) =>
          match Open env fds1 r.token[i + 1]? with
          | Except.error e => Except.error e
          | Except.ok (fds2, fd) =>
            do_redir_loop env ntokens fuel (i + 2) n
              { r with token := (r.token.set i token_t.T_NULL).set (i + 1) token_t.T_NULL,
                       input := fd, fds := fds2 }
      | some token_t.T_OUTPUT =>
        match MaybeClose r.fds r.output with
        | Except.error e => Except.error e
        | Except.ok (fds1, _) =>
          match Open env fds1 r.token[i + 1]? with
          | Except.error e => Except.error e
          | Except.ok (fds2, fd) =>
            do_redir_loop env ntokens fuel (i + 2) n
              { r with token := (r.token.set i token_t.T_NULL).set (i + 1) token_t.T_NULL,
                       output := fd, fds := fds2 }
      | some _ => do_redir_loop env ntokens fuel (i + 1) (n + 1) r
    else Except.ok (r, n)

/-- The function `do_redir(token, ntokens, inputp, outputp)`: the values behind the
pointers afterwards and the returned count `n`; the last statement is `token[n] = NULL`. -/
def do_redir (env : Env) (ntokens : Nat) (r : Redir) : Except Abort (Redir × Nat) :=
  match do_redir_loop env ntokens ntokens 0 0 r with
  | Except.error e => Except.error e
  | Except.ok (r1, n) =>
    if n < r1.token.length then Except.ok ({ r1 with token := r1.token.set n token_t.T_NULL }, n)
    else Except.error Abort.undefined

/-- The `argv` that starts at a token pointer: the tokens before the first `T_NULL`. -/
def argv_of (token : List token_t) : List token_t :=
  token.takeWhile (fun x => x ≠ token_t.T_NULL)

/-- The strings of an `argv`; a sentinel marker in it is not a valid string address. -/
def words_of : List token_t → Option (List String)
  | [] => some []
  | token_t.word s :: rest =>
    match words_of rest with
    | some ws => some (s :: ws)
    | none => none
  | _ :: _ => none

/-- The call `addproc(j, pid, token)` made by the launcher. -/
def addproc_tokens (t : JobTable) (j : Nat) (pid : Int) (token : List token_t) :
    Except Abort JobTable :=
  match words_of (argv_of token) with
  | none => Except.error Abort.undefined
  | some argv =>
    match addproc t j pid argv with
    | none => Except.error Abort.undefined
    | some t1 => Except.ok t1

/-! ## `shell.c`: launching a single command -/

/-- The function `do_job(token, ntokens, bg)`: the shell state afterwards and the returned
exit code. `susp` are the returns of `Sigsuspend` seen by `monitorjob`; a monitor without
result (undefined behaviour, or a job that never leaves RUNNING) gives no result here. -/
def do_job (env : Env) (susp : List (List (Int × Int))) (w : World)
    (token : List token_t) (ntokens : Nat) (bg : Bool) : Except Abort (World × Int) :=
  match do_redir env ntokens { token := token, input := -1, output := -1, fds := w.fds } with
  | Except.error e => Except.error e
  | Except.ok (r, _) =>
    let b := env.builtin_command (argv_of r.token) w.jobs
    if bg = false ∧ b.1 ≥ 0 then
      Except.ok ({ w with fds := r.fds, jobs := b.2 }, b.1)
    else
      let jobs0 := if bg then w.jobs else b.2
      let pid := env.fork_pid w.nfork
      if pid = 0 then Except.error Abort.child
      else if pid > 0 then
        match MaybeClose r.fds r.input with
        | Except.error e => Except.error e
        | Except.ok (fds1, _) =>
          match MaybeClose fds1 r.output with
          | Except.error e => Except.error e
          | Except.ok (fds2, _) =>
            let a := addjob env.shell_tmodes jobs0 pid bg
            match addproc_tokens a.1 a.2 pid r.token with
            | Except.error e => Except.error e
            | Except.ok jobs1 =>
              let child : Child :=
                { pid := pid, pgid := pid, input := r.input, output := r.output,
                  argv := argv_of r.token, bg := bg }
              let w1 : World :=
                { w with fds := fds2, jobs := jobs1, nfork := w.nfork + 1,
                         children := w.children ++ [child] }
              if bg then
                match jobcmd jobs1 a.2 with
                | some (some cmd) =>
                  Except.ok ({ w1 with out := w1.out ++ "[" ++ toString a.2 ++
                    "] running '" ++ cmd ++ "'\n" }, 0)
                | _ => Except.error Abort.undefined
              else
                match monitorjob susp jobs1 with
                | none => Except.error Abort.undefined
                | some (jobs2, e) => Except.ok ({ w1 with jobs := jobs2 }, e)
      else Except.ok ({ w with fds := r.fds, jobs := jobs0, nfork := w.nfork + 1 }, -1)

/-! ## `shell.c`: launching a pipeline -/

/-- The function `do_stage(pgid, mask, input, output, token, ntokens, bg)`, where `token`
is the array as seen from the pointer passed: the shell state afterwards, the returned
pid and the token array as left by `do_redir`. The child records the `pgid` argument
(`0` for the first stage: `setpgid` then makes the child a group leader). -/
def do_stage (env : Env) (w : World) (pgid input output : Int) (token : List token_t)
    (ntokens : Nat) (bg : Bool) : Except Abort (World × Int × List token_t) :=
  match do_redir env ntokens
      { token := token, input := input, output := output, fds := w.fds } with
  | Except.error e => Except.error e
  | Except.ok (r, n) =>
    if n = 0 then Except.error (Abort.app_error "ERROR: Command line is not well formed!")
    else
      let pid := env.fork_pid w.nfork
      if pid = 0 then Except.error Abort.child
      else if pid > 0 then
        match MaybeClose r.fds r.input with
        | Except.error e => Except.error e
        | Except.ok (fds1, _) =>
          match MaybeClose fds1 r.output with
          | Except.error e => Except.error e
          | Except.ok (fds2, _) =>
            let child : Child :=
              { pid := pid, pgid := pgid, input := r.input, output := r.output,
                argv := argv_of r.token, bg := bg }
            Except.ok ({ w with fds := fds2, nfork := w.nfork + 1,
                                children := w.children ++ [child] }, pid, r.token)
      else Except.ok ({ w with fds := r.fds, nfork := w.nfork + 1 }, -1, r.token)

/-- The function `mkpipe(readp, writep)`: `Pipe` takes the two lowest free descriptors;
the shell state afterwards, the read end and the write end. -/
def mkpipe (w : World) : World × Int × Int :=
  let rd := lowest_free w.fds
  let wr := lowest_free (rd :: w.fds)
  ({ w with fds := wr :: rd :: w.fds, pipes := w.pipes ++ [(rd, wr)] }, rd, wr)

/-- The local variables of `do_pipeline` together with the token array and the shell
state; `job = none` stands for `job == -1`. -/
structure Pipeline where
  token : List token_t
  processed_tokens : Nat
  is_last_token : Bool
  input : Int
  output : Int
  next_input : Int
  job : Option Nat
  pgid : Int
  w : World
deriving DecidableEq, Repr

/-- The inner loop `while (i < ntokens)` of `do_pipeline` ("find next pipe symbol"): the
final `i`, the token array, `output` and `is_last_token`. -/
def find_pipe (ntokens : Nat) :
    Nat → Nat → List token_t → Int → Bool → Except Abort (Nat × List token_t × Int × Bool)
  | 0, i, token, output, is_last_token => Except.ok (i, token, output, is_last_token)
  | fuel + 1, i, token, output, is_last_token =>
    if i < ntokens then
      let last : Bool :=
        decide (i + 1 = ntokens) ||
          (decide (i + 2 = ntokens) && decide (token[ntokens - 1]? = some token_t.T_BGJOB))
      let output1 := if last then -1 else output
      let is_last_token1 := if last then true else is_last_token
      match token[i]? with
      | none => Except.error Abort.undefined
      | some token_t.T_PIPE => Except.ok (i, token.set i token_t.T_NULL, output1, is_last_token1)
      | some _ => find_pipe ntokens fuel (i + 1) token output1 is_last_token1
    else Except.ok (i, token, output, is_last_token)

/-- The outer loop `while (processed_tokens < ntokens)` of `do_pipeline`. -/
def do_pipeline_loop (env : Env) (ntokens : Nat) (bg : Bool) :
    Nat → Pipeline → Except Abort Pipeline
  | 0, p => Except.ok p
  | fuel + 1, p =>
    if p.processed_tokens < ntokens then
      match find_pipe ntokens ntokens p.processed_tokens p.token p.output p.is_last_token with
      | Except.error e => Except.error e
      | Except.ok (i, token1, output1, is_last_token1) =>
        let new_start := p.processed_tokens
        let sub_len := i - p.processed_tokens
        let input1 := if p.job.isSome then p.next_input else p.input
        let m : World × Int × Int :=
          if is_last_token1 = false ∧ p.job.isSome then mkpipe p.w
          else (p.w, p.next_input, output1)
        match do_stage env m.1 p.pgid input1 m.2.2 (token1.drop new_start) sub_len bg with
        | Except.error e => Except.error e
        | Except.ok (w2, pid, seg) =>
          let token2 := token1.take new_start ++ seg
          match p.job with
          | some job =>
            match addproc_tokens w2.jobs job pid (token2.drop new_start) with
            | Except.error e => Except.error e
            | Except.ok jobs1 =>
              do_pipeline_loop env ntokens bg fuel
                { token := token2, processed_tokens := i + 1,
                  is_last_token := is_last_token1, input := input1, output := m.2.2,
                  next_input := m.2.1, job := some job, pgid := p.pgid,
                  w := { w2 with jobs := jobs1 } }
          | none =>
            let a := addjob env.shell_tmodes w2.jobs pid bg
            match addproc_tokens a.1 a.2 pid token2 with
            | Except.error e => Except.error e
            | Except.ok jobs1 =>
              do_pipeline_loop env ntokens bg fuel
                { token := token2, processed_tokens := i + 1,
                  is_last_token := is_last_token1, input := input1, output := m.2.2,
                  next_input := m.2.1, job := some a.2, pgid := pid,
                  w := { w2 with jobs := jobs1 } }
    else Except.ok p

/-- The part of `do_pipeline(token, ntokens, bg)` before the monitor: the first `mkpipe`
and the loop over the stages. -/
def do_pipeline_launch (env : Env) (w : World) (token : List token_t) (ntokens : Nat)
    (bg : Bool) : Except Abort Pipeline :=
  let m := mkpipe w
  do_pipeline_loop env ntokens bg ntokens
    { token := token, processed_tokens := 0, is_last_token := false, input := -1,
      output := m.2.2, next_input := m.2.1, job := none, pgid := 0, w := m.1 }

/-- The function `do_pipeline(token, ntokens, bg)`: the shell state afterwards and the
returned exit code. -/
def do_pipeline (env : Env) (susp : List (List (Int × Int))) (w : World)
    (token : List token_t) (ntokens : Nat) (bg : Bool) : Except Abort (World × Int) :=
  match do_pipeline_launch env w token ntokens bg with
  | Except.error e => Except.error e
  | Except.ok p =>
    if bg then Except.ok (p.w, 0)
    else
      match monitorjob susp p.w.jobs with
      | none => Except.error Abort.undefined
      | some (jobs1, e) => Except.ok ({ p.w with jobs := jobs1 }, e)

/-- The function `is_pipeline(token, ntokens)`. -/
def is_pipeline (token : List token_t) (ntokens : Nat) : Bool :=
  (token.take ntokens).any (fun x => x == token_t.T_PIPE)

/-- The function `eval(cmdline)` after `tokenize` returned `token` and `ntokens`. -/
def eval (env : Env) (susp : List (List (Int × Int))) (w : World) (token : List token_t)
    (ntokens : Nat) : Except Abort World :=
  let stripped : Bool := decide (ntokens > 0) && decide (token[ntokens - 1]? = some token_t.T_BGJOB)
  let token1 := if stripped then token.set (ntokens - 1) token_t.T_NULL else token
  let ntokens1 := if stripped then ntokens - 1 else ntokens
  if ntokens1 > 0 then
    if is_pipeline token1 ntokens1 then
      match do_pipeline env susp w token1 ntokens1 stripped with
      | Except.error e => Except.error e
      | Except.ok r => Except.ok r.1
    else
      match do_job env susp w token1 ntokens1 stripped with
      | Except.error e => Except.error e
      | Except.ok r => Except.ok r.1
  else Except.ok w

/-- An environment for worked examples: the forks return the pids 100, 101, ..; every
file can be opened; `cd` is the only built-in. -/
def example_env : Env :=
  { fork_pid := fun n => 100 + n
    can_open := fun _ => true
    builtin_command := fun argv jobs =>
      match argv with
      | token_t.word "cd" :: _ => (0, jobs)
      | _ => (-1, jobs)
    shell_tmodes := 0 }

/-- The shell right after start: standard descriptors and the terminal descriptor open,
the job table of `initjobs`. -/
def example_world : World :=
  { fds := [0, 1, 2, 3], jobs := initjobs, nfork := 0, children := [], pipes := [], out := "" }

/-- The `argv` that spec §4.5 prescribes for a stage: the tokens with every redirection
marker and the file name that follows it erased, the others in their order. -/
def erase_redirections : List token_t → List token_t
  | [] => []
  | [token_t.T_INPUT] => []
  | [token_t.T_OUTPUT] => []
  | token_t.T_INPUT :: _ :: rest => erase_redirections rest
  | token_t.T_OUTPUT :: _ :: rest => erase_redirections rest
  | tok :: rest => tok :: erase_redirections rest

/-- The calls `addproc(j, pid_1, argv_1)`, .., `addproc(j, pid_k, argv_k)` made one after
the other on slot `j`. -/
def addprocs (t : JobTable) (j : Nat) : List (Int × List String) → Option JobTable
  | [] => some t
  | call :: rest =>
    match addproc t j call.1 call.2 with
    | none => none
    | some t1 => addprocs t1 j rest

/-- The command text of spec §4.3 for the stages `argv_1, .., argv_k`: the words of each
stage joined by `" "`, the stage strings joined by `" | "`. -/
def spec_command (argvs : List (List String)) : String :=
  String.intercalate " | " (argvs.map (fun argv => String.intercalate " " argv))

/-- A word of `MAXLINE` bytes. -/
def long_command (MAXLINE : Nat) : String := String.mk (List.replicate MAXLINE 'a')

/-- The table after the command line made of the word `long_command MAXLINE` and `&` was
launched from the initial table, the fork returning pid 100. -/
def long_command_table (MAXLINE : Nat) : JobTable :=
  { fg := zero_job,
    bg := [{ pgid := 100, proc := [{ pid := 100, state := State.RUNNING, exitcode := -1 }],
             tmodes := 0, state := State.RUNNING, command := some (long_command MAXLINE) }] }

/-! # Theorems -/

/-! ## The reaper step -/

theorem reap_procs_fst (pid status : Int) (ps : List proc_t) (r s : Bool) :
    (reap_procs pid status ps r s).1 = ps.map (reap_one pid status) := by
  induction ps generalizing r s with
  | nil => rfl
  | cons p ps ih =>
    by_cases h : p.state = State.FINISHED
    · simp [reap_procs, reap_one, h, ih]
    · simp [reap_procs, reap_one, h, ih]

theorem reap_procs_running (pid status : Int) (ps : List proc_t) (r s : Bool) :
    (reap_procs pid status ps r s).2.1 = true ↔
      r = true ∨ State.RUNNING ∈ (ps.map (reap_one pid status)).map (·.state) := by
  induction ps generalizing r s with
  | nil => simp [reap_procs]
  | cons p ps ih =>
    by_cases h : p.state = State.FINISHED
    · simp [reap_procs, reap_one, h, ih]
    · by_cases h2 : (reap_proc pid status p).state = State.RUNNING
      · simp [reap_procs, reap_one, h, ih, h2]
      · simp [reap_procs, reap_one, h, ih, h2]
        tauto

theorem reap_procs_stopped (pid status : Int) (ps : List proc_t) (r s : Bool) :
    (reap_procs pid status ps r s).2.2 = true ↔
      s = true ∨ State.STOPPED ∈ (ps.map (reap_one pid status)).map (·.state) := by
  induction ps generalizing r s with
  | nil => simp [reap_procs]
  | cons p ps ih =>
    by_cases h : p.state = State.FINISHED
    · simp [reap_procs, reap_one, h, ih]
    · by_cases h2 : (reap_proc pid status p).state = State.RUNNING
      · simp [reap_procs, reap_one, h, ih, h2]
      · by_cases h3 : (reap_proc pid status p).state = State.STOPPED
        · simp [reap_procs, reap_one, h, ih, h2, h3]
        · simp [reap_procs, reap_one, h, ih, h2, h3]
          tauto

theorem reap_job_proc (pid status : Int) (J : job_t) (h : J.pgid ≠ 0) :
    (reap_job pid status J).proc = J.proc.map (reap_one pid status) := by
  simp [reap_job, h, reap_procs_fst]

theorem reap_job_pgid (pid status : Int) (J : job_t) :
    (reap_job pid status J).pgid = J.pgid := by
  unfold reap_job
  split <;> rfl

theorem reap_job_consistent (pid status : Int) (J : job_t) :
    job_consistent (reap_job pid status J) := by
  intro h
  rw [reap_job_pgid] at h
  rw [reap_job_proc pid status J h]
  have hr := reap_procs_running pid status J.proc false false
  have hs := reap_procs_stopped pid status J.proc false false
  simp only [reap_job, h, if_false, agg]
  by_cases h1 : State.RUNNING ∈ (J.proc.map (reap_one pid status)).map (·.state)
  · have : (reap_procs pid status J.proc false false).2.1 = true := hr.2 (Or.inr h1)
    rw [if_pos h1, if_pos this]
  · have h1' : ¬ (reap_procs pid status J.proc false false).2.1 = true := by
      intro hb
      rcases hr.1 hb with h0 | h0
      · exact absurd h0 (by decide)
      · exact h1 h0
    rw [if_neg h1, if_neg h1']
    by_cases h2 : State.STOPPED ∈ (J.proc.map (reap_one pid status)).map (·.state)
    · have : (reap_procs pid status J.proc false false).2.2 = true := hs.2 (Or.inr h2)
      rw [if_pos h2, if_pos this]
    · have h2' : ¬ (reap_procs pid status J.proc false false).2.2 = true := by
        intro hb
        rcases hs.1 hb with h0 | h0
        · exact absurd h0 (by decide)
        · exact h2 h0
      rw [if_neg h2, if_neg h2']

theorem sigchld_step_get (pid status : Int) (t : JobTable) (i : Nat) :
    (sigchld_step pid status t).get? i = (t.get? i).map (reap_job pid status) := by
  cases i with
  | zero => rfl
  | succ k => simp [sigchld_step, JobTable.get?, List.getElem?_map]

theorem stopped_not_finished (status : Int) (h : WIFSTOPPED status = true) :
    (WIFEXITED status || WIFSIGNALED status) = false ∧ WIFCONTINUED status = false := by
  simp only [WIFSTOPPED, WIFEXITED, WIFSIGNALED, WIFCONTINUED, WTERMSIG, beq_iff_eq] at *
  have h1 : status % 128 = 127 := by omega
  refine ⟨?_, ?_⟩
  · simp [h1]
  · simp; omega

theorem continued_not_finished (status : Int) (h : WIFCONTINUED status = true) :
    (WIFEXITED status || WIFSIGNALED status) = false := by
  simp only [WIFCONTINUED, beq_iff_eq] at h
  subst h
  decide

/-- C1. Reaper step: a not-yet-FINISHED process with the returned pid, in a non-free job,
becomes FINISHED with the wait-status stored (status exited or signaled), RUNNING
(continued) or STOPPED (stopped), and afterwards the job's state is the aggregate of its
updated process states; the job keeps its pgid and the number of its processes. -/
theorem reaper_step_updates_process_and_job (t : JobTable) (pid status : Int) (i : Nat)
    (J : job_t) (k : Nat) (p : proc_t)
    (hJ : t.get? i = some J) (hfree : J.pgid ≠ 0)
    (hp : J.proc[k]? = some p) (hpid : p.pid = pid) (hst : p.state ≠ State.FINISHED) :
    ∃ J1 p1, (sigchld_step pid status t).get? i = some J1 ∧ J1.proc[k]? = some p1 ∧
      p1.pid = pid ∧
      ((WIFEXITED status = true ∨ WIFSIGNALED status = true) →
        p1.state = State.FINISHED ∧ p1.exitcode = status) ∧
      (WIFCONTINUED status = true → p1.state = State.RUNNING) ∧
      (WIFSTOPPED status = true → p1.state = State.STOPPED) ∧
      J1.state = agg (J1.proc.map (·.state)) ∧
      J1.pgid = J.pgid ∧ J1.proc.length = J.proc.length := by
  refine ⟨reap_job pid status J, reap_proc pid status p, ?_, ?_, ?_, ?_, ?_, ?_, ?_, ?_, ?_⟩
  · rw [sigchld_step_get, hJ]; rfl
  · rw [reap_job_proc pid status J hfree, List.getElem?_map, hp]
    simp [reap_one, hst]
  · unfold reap_proc
    rw [if_pos hpid.symm]
    split
    · exact hpid
    · split
      · exact hpid
      · split <;> exact hpid
  · intro h
    have h1 : (WIFEXITED status || WIFSIGNALED status) = true := by
      rcases h with h | h <;> simp [h]
    simp [reap_proc, hpid, h1]
  · intro h
    have h1 := continued_not_finished status h
    simp [reap_proc, hpid, h1, h]
  · intro h
    have h1 := stopped_not_finished status h
    simp [reap_proc, hpid, h1.1, h1.2, h]
  · have := reap_job_consistent pid status J
    exact this (by rw [reap_job_pgid]; exact hfree)
  · exact reap_job_pgid pid status J
  · rw [reap_job_proc pid status J hfree]; simp

/-- C1 at a concrete table: pid 7 of the two-process job in slot 1 is reported stopped. -/
theorem reaper_step_updates_process_and_job_witness :
    ∃ J1 p1,
      (sigchld_step 7 4991
        { fg := zero_job,
          bg := [{ pgid := 7, proc := [⟨7, State.RUNNING, -1⟩, ⟨8, State.RUNNING, -1⟩],
                   tmodes := 0, state := State.RUNNING, command := some "a | b" }] }).get? 1
        = some J1 ∧ J1.proc[0]? = some p1 ∧ p1.pid = 7 ∧
      ((WIFEXITED 4991 = true ∨ WIFSIGNALED 4991 = true) →
        p1.state = State.FINISHED ∧ p1.exitcode = 4991) ∧
      (WIFCONTINUED 4991 = true → p1.state = State.RUNNING) ∧
      (WIFSTOPPED 4991 = true → p1.state = State.STOPPED) ∧
      J1.state = agg (J1.proc.map (·.state)) ∧
      J1.pgid = 7 ∧ J1.proc.length = 2 :=
  reaper_step_updates_process_and_job
    { fg := zero_job,
      bg := [{ pgid := 7, proc := [⟨7, State.RUNNING, -1⟩, ⟨8, State.RUNNING, -1⟩],
               tmodes := 0, state := State.RUNNING, command := some "a | b" }] }
    7 4991 1
    { pgid := 7, proc := [⟨7, State.RUNNING, -1⟩, ⟨8, State.RUNNING, -1⟩],
      tmodes := 0, state := State.RUNNING, command := some "a | b" }
    0 ⟨7, State.RUNNING, -1⟩ rfl (by decide) rfl rfl (by decide)

/-! ## The job-state invariant -/

theorem get_mem_slots (t : JobTable) (j : Nat) (J : job_t) (h : t.get? j = some J) :
    J ∈ t.slots := by
  cases j with
  | zero =>
    simp only [JobTable.get?, Option.some.injEq] at h
    simp [JobTable.slots, h]
  | succ k =>
    simp only [JobTable.get?] at h
    have := List.getElem?_mem h
    simp [JobTable.slots, this]

theorem mem_slots_set (t : JobTable) (j : Nat) (x J : job_t) (h : J ∈ (t.set j x).slots) :
    J = x ∨ J ∈ t.slots := by
  cases j with
  | zero =>
    simp only [JobTable.set, JobTable.slots, List.mem_cons] at h ⊢
    tauto
  | succ k =>
    simp only [JobTable.set, JobTable.slots, List.mem_cons] at h ⊢
    rcases h with h | h
    · exact Or.inr (Or.inl h)
    · rcases List.mem_or_eq_of_mem_set h with h | h
      · exact Or.inr (Or.inr h)
      · exact Or.inl h

theorem set_set (t : JobTable) (j : Nat) (a b : job_t) :
    (t.set j a).set j b = t.set j b := by
  cases j with
  | zero => rfl
  | succ k => simp [JobTable.set]

theorem get_set_self (t : JobTable) (j : Nat) (a J : job_t) (h : t.get? j = some J) :
    (t.set j a).get? j = some a := by
  cases j with
  | zero => rfl
  | succ k =>
    simp only [JobTable.get?] at h
    have hk : k < t.bg.length := (List.getElem?_eq_some_iff.1 h).1
    simp [JobTable.set, JobTable.get?, hk]

theorem get_set_ne (t : JobTable) (i j : Nat) (a : job_t) (h : i ≠ j) :
    (t.set j a).get? i = t.get? i := by
  cases j with
  | zero =>
    cases i with
    | zero => exact absurd rfl h
    | succ k => rfl
  | succ k =>
    cases i with
    | zero => rfl
    | succ m =>
      have : k ≠ m := fun e => h (by rw [e])
      simp [JobTable.set, JobTable.get?, List.getElem?_set_ne this]

theorem invariant_set (t : JobTable) (j : Nat) (x : job_t) (h : state_invariant t)
    (hx : job_consistent x) : state_invariant (t.set j x) := by
  intro J hJ
  rcases mem_slots_set t j x J hJ with e | e
  · rw [e]; exact hx
  · exact h J e

theorem zero_job_consistent : job_consistent zero_job := fun h => absurd rfl h

theorem invariant_init : state_invariant initjobs := by
  intro J hJ
  simp only [initjobs, JobTable.slots, List.mem_singleton] at hJ
  rw [hJ]; exact zero_job_consistent

theorem invariant_sigchld_step (pid status : Int) (t : JobTable) :
    state_invariant (sigchld_step pid status t) := by
  intro J hJ
  simp only [sigchld_step, JobTable.slots, List.mem_cons, List.mem_map] at hJ
  rcases hJ with e | ⟨a, _, e⟩
  · rw [e]; exact reap_job_consistent pid status t.fg
  · rw [← e]; exact reap_job_consistent pid status a

theorem invariant_allocjob (t : JobTable) (h : state_invariant t) :
    state_invariant (allocjob t).1 := by
  unfold allocjob
  split
  · exact h
  · intro J hJ
    simp only [JobTable.slots, List.mem_cons, List.mem_append, List.mem_singleton] at hJ
    rcases hJ with e | e | e
    · exact h J (by simp [JobTable.slots, e])
    · exact h J (by simp [JobTable.slots, e])
    · simp only [List.not_mem_nil, or_false] at e
      rw [e]; exact zero_job_consistent

theorem invariant_movejob (t t1 : JobTable) (src dst : Nat) (h : state_invariant t)
    (hm : movejob t src dst = some t1) : state_invariant t1 := by
  unfold movejob at hm
  split at hm
  · rename_i a b ha hb
    split at hm
    · simp only [Option.some.injEq] at hm
      rw [← hm]
      exact invariant_set _ _ _ (invariant_set _ _ _ h (h a (get_mem_slots t src a ha)))
        zero_job_consistent
    · exact absurd hm (by simp)
  · exact absurd hm (by simp)

theorem deljob_free (job job1 : job_t) (h : deljob job = some job1) : job1.pgid = 0 := by
  unfold deljob at h
  by_cases hs : job.state = State.FINISHED
  · rw [if_pos hs] at h
    simp only [Option.some.injEq] at h
    rw [← h]
  · rw [if_neg hs] at h
    exact absurd h (by simp)

theorem jobstate_table (t : JobTable) (j : Nat) (status : Int)
    (r : JobTable × State × Int) (hj : jobstate t j status = some r) :
    r.1 = t ∨ ∃ job1, job1.pgid = 0 ∧ r.1 = t.set j job1 := by
  unfold jobstate at hj
  cases hg : t.get? j with
  | none => rw [hg] at hj; exact absurd hj (by simp)
  | some job =>
    rw [hg] at hj
    simp only at hj
    by_cases hs : job.state = State.FINISHED
    · rw [if_pos hs] at hj
      cases he : exitcode job with
      | none => rw [he] at hj; exact absurd hj (by simp)
      | some e =>
        cases hd : deljob job with
        | none => rw [he, hd] at hj; exact absurd hj (by simp)
        | some job1 =>
          rw [he, hd] at hj
          simp only [Option.some.injEq] at hj
          rw [← hj]
          exact Or.inr ⟨job1, deljob_free job job1 hd, rfl⟩
    · rw [if_neg hs] at hj
      simp only [Option.some.injEq] at hj
      rw [← hj]
      exact Or.inl rfl

theorem invariant_jobstate (t : JobTable) (j : Nat) (status : Int)
    (r : JobTable × State × Int) (h : state_invariant t)
    (hj : jobstate t j status = some r) : state_invariant r.1 := by
  rcases jobstate_table t j status r hj with e | ⟨job1, h0, e⟩
  · rw [e]; exact h
  · rw [e]; exact invariant_set _ _ _ h (fun hne => absurd h0 hne)

theorem invariant_watchjobs_loop (MAXLINE : Nat) (which : Which) (fuel : Nat) :
    ∀ (j : Nat) (t : JobTable) (out : String) (r : JobTable × String),
      state_invariant t → watchjobs_loop MAXLINE which fuel j t out = some r →
      state_invariant r.1 := by
  induction fuel with
  | zero =>
    intro j t out r h hw
    simp only [watchjobs_loop, Option.some.injEq] at hw
    rw [← hw]; exact h
  | succ fuel ih =>
    intro j t out r h hw
    unfold watchjobs_loop at hw
    cases hg : t.get? j with
    | none =>
      rw [hg] at hw
      simp only [Option.some.injEq] at hw
      rw [← hw]; exact h
    | some job =>
      rw [hg] at hw
      simp only at hw
      by_cases hp : job.pgid = 0
      · rw [if_pos hp] at hw
        exact ih _ _ _ _ h hw
      · rw [if_neg hp] at hw
        cases hc : job.command with
        | none => rw [hc] at hw; exact absurd hw (by simp)
        | some cmd =>
          rw [hc] at hw
          simp only at hw
          by_cases hl : cmd.utf8ByteSize + 1 ≤ MAXLINE
          · rw [if_pos hl] at hw
            cases hjs : jobstate t j 0 with
            | none => rw [hjs] at hw; exact absurd hw (by simp)
            | some q =>
              rw [hjs] at hw
              exact ih _ _ _ _ (invariant_jobstate t j 0 q h hjs) hw
          · rw [if_neg hl] at hw
            exact absurd hw (by simp)

theorem invariant_watchjobs (MAXLINE : Nat) (which : Which) (t : JobTable)
    (r : JobTable × String) (h : state_invariant t)
    (hw : watchjobs MAXLINE which t = some r) : state_invariant r.1 :=
  invariant_watchjobs_loop MAXLINE which _ _ _ _ _ h hw

theorem agg_append_running (l : List State) : agg (l ++ [State.RUNNING]) = State.RUNNING := by
  simp [agg]

theorem addproc_table (t t1 : JobTable) (j : Nat) (pid : Int) (argv : List String)
    (h : addproc t j pid argv = some t1) :
    ∃ job c, t.get? j = some job ∧
      t1 = t.set j { job with
        proc := job.proc ++ [{ pid := pid, state := State.RUNNING, exitcode := -1 }],
        command := c } := by
  unfold addproc at h
  cases hg : t.get? j with
  | none => rw [hg] at h; exact absurd h (by simp)
  | some job =>
    rw [hg] at h
    simp only at h
    cases hm : mkcommand job.command argv with
    | none => rw [hm] at h; exact absurd h (by simp)
    | some c =>
      rw [hm] at h
      simp only [Option.some.injEq] at h
      exact ⟨job, c, rfl, h.symm⟩

theorem invariant_addproc (t t1 : JobTable) (j : Nat) (pid : Int) (argv : List String)
    (J : job_t) (h : state_invariant t) (hJ : t.get? j = some J)
    (hr : J.pgid = 0 ∨ J.state = State.RUNNING)
    (ha : addproc t j pid argv = some t1) : state_invariant t1 := by
  obtain ⟨job, c, hg, e⟩ := addproc_table t t1 j pid argv ha
  rw [hJ] at hg
  simp only [Option.some.injEq] at hg
  subst hg
  rw [e]
  apply invariant_set _ _ _ h
  intro hne
  simp only at hne
  rcases hr with h0 | h0
  · exact absurd h0 hne
  · simp only [List.map_append, List.map_cons, List.map_nil]
    rw [agg_append_running]; exact h0

theorem get_set_same (t : JobTable) (j : Nat) (a J : job_t)
    (h : (t.set j a).get? j = some J) : J = a := by
  cases j with
  | zero =>
    simp only [JobTable.set, JobTable.get?, Option.some.injEq] at h
    exact h.symm
  | succ k =>
    simp only [JobTable.set, JobTable.get?] at h
    have hk : k < (t.bg.set k a).length := (List.getElem?_eq_some_iff.1 h).1
    rw [List.length_set] at hk
    rw [List.getElem?_set_self hk] at h
    simp only [Option.some.injEq] at h
    exact h.symm

theorem invariant_launch (tm : Nat) (t t1 : JobTable) (pgid : Int) (bg : Bool) (pid : Int)
    (argv : List String) (h : state_invariant t)
    (ha : addproc (addjob tm t pgid bg).1 (addjob tm t pgid bg).2 pid argv = some t1) :
    state_invariant t1 := by
  obtain ⟨job, c, hg, e⟩ := addproc_table _ t1 _ pid argv ha
  have h0 : state_invariant (if bg then allocjob t else (t, FG)).1 := by
    cases bg
    · exact h
    · exact invariant_allocjob t h
  simp only [addjob] at hg e
  have hjob := get_set_same _ _ _ _ hg
  rw [set_set] at e
  rw [e]
  apply invariant_set _ _ _ h0
  intro _
  rw [hjob]
  simp [fresh_job, agg]

theorem resumed_of_invariant (t : JobTable) (h : state_invariant t) : resumed_invariant t :=
  ⟨fun J hJ => h J (by simp [JobTable.slots, hJ]), Or.inl (h t.fg (by simp [JobTable.slots]))⟩

theorem resumed_sigchld_handler (reaped : List (Int × Int)) :
    ∀ t : JobTable, resumed_invariant t → resumed_invariant (sigchld_handler reaped t) := by
  induction reaped with
  | nil => intro t h; exact h
  | cons ps rest ih =>
    intro t _
    simp only [sigchld_handler, List.foldl_cons]
    exact ih _ (resumed_of_invariant _ (invariant_sigchld_step ps.1 ps.2 t))

theorem jobstate_state (t : JobTable) (j : Nat) (status : Int)
    (q : JobTable × State × Int) (hj : jobstate t j status = some q) :
    ∃ job, t.get? j = some job ∧ q.2.1 = job.state ∧
      (job.state ≠ State.FINISHED → q.1 = t ∧ q.2.2 = status) := by
  unfold jobstate at hj
  cases hg : t.get? j with
  | none => rw [hg] at hj; exact absurd hj (by simp)
  | some job =>
    rw [hg] at hj
    simp only at hj
    refine ⟨job, rfl, ?_⟩
    by_cases hs : job.state = State.FINISHED
    · rw [if_pos hs] at hj
      cases he : exitcode job with
      | none => rw [he] at hj; exact absurd hj (by simp)
      | some e =>
        cases hd : deljob job with
        | none => rw [he, hd] at hj; exact absurd hj (by simp)
        | some job1 =>
          rw [he, hd] at hj
          simp only [Option.some.injEq] at hj
          rw [← hj]
          exact ⟨rfl, fun hne => absurd hs hne⟩
    · rw [if_neg hs] at hj
      simp only [Option.some.injEq] at hj
      rw [← hj]
      exact ⟨rfl, fun _ => ⟨rfl, rfl⟩⟩

theorem invariant_monitorjob_step (t : JobTable) (status : Int)
    (q : JobTable × State × Int) (h : resumed_invariant t)
    (hj : jobstate t FG status = some q) :
    (q.2.1 = State.RUNNING ∧ q.1 = t ∧ q.2.2 = status) ∨
      (q.2.1 ≠ State.RUNNING ∧ state_invariant q.1) := by
  obtain ⟨job, hg, hst, hun⟩ := jobstate_state t FG status q hj
  simp only [FG, JobTable.get?, Option.some.injEq] at hg
  subst hg
  by_cases hr : t.fg.state = State.RUNNING
  · left
    have := hun (by rw [hr]; decide)
    exact ⟨by rw [hst, hr], this.1, this.2⟩
  · right
    refine ⟨by rw [hst]; exact hr, invariant_jobstate t FG status q ?_ hj⟩
    intro J hJ
    simp only [JobTable.slots, List.mem_cons] at hJ
    rcases hJ with e | e
    · rw [e]
      rcases h.2 with h2 | h2
      · exact h2
      · exact absurd h2 hr
    · exact h.1 J e

theorem invariant_monitorjob_loop (susp : List (List (Int × Int))) :
    ∀ (t : JobTable) (status : Int) (q : JobTable × State × Int),
      resumed_invariant t → monitorjob_loop susp t status = some q →
      state_invariant q.1 := by
  induction susp with
  | nil =>
    intro t status q h hm
    unfold monitorjob_loop at hm
    cases hj : jobstate t FG status with
    | none => rw [hj] at hm; exact absurd hm (by simp)
    | some q1 =>
      rw [hj] at hm
      simp only at hm
      by_cases hd : q1.2.1 = State.FINISHED ∨ q1.2.1 = State.STOPPED
      · rw [if_pos hd] at hm
        simp only [Option.some.injEq] at hm
        rw [← hm]
        rcases invariant_monitorjob_step t status q1 h hj with ⟨hr, _, _⟩ | ⟨_, hi⟩
        · rw [hr] at hd
          exact absurd hd (by decide)
        · exact hi
      · rw [if_neg hd] at hm
        exact absurd hm (by simp)
  | cons reaped rest ih =>
    intro t status q h hm
    unfold monitorjob_loop at hm
    cases hj : jobstate t FG status with
    | none => rw [hj] at hm; exact absurd hm (by simp)
    | some q1 =>
      rw [hj] at hm
      simp only at hm
      by_cases hd : q1.2.1 = State.FINISHED ∨ q1.2.1 = State.STOPPED
      · rw [if_pos hd] at hm
        simp only [Option.some.injEq] at hm
        rw [← hm]
        rcases invariant_monitorjob_step t status q1 h hj with ⟨hr, _, _⟩ | ⟨_, hi⟩
        · rw [hr] at hd
          exact absurd hd (by decide)
        · exact hi
      · rw [if_neg hd] at hm
        rcases invariant_monitorjob_step t status q1 h hj with ⟨_, ht, _⟩ | ⟨_, hi⟩
        · rw [ht] at hm
          exact ih _ _ _ (resumed_sigchld_handler reaped t h) hm
        · exact ih _ _ _ (resumed_sigchld_handler reaped _ (resumed_of_invariant _ hi)) hm

theorem invariant_monitorjob (susp : List (List (Int × Int))) (t : JobTable)
    (r : JobTable × Int) (h : resumed_invariant t) (hm : monitorjob susp t = some r) :
    state_invariant r.1 := by
  unfold monitorjob at hm
  cases hl : monitorjob_loop susp t 0 with
  | none => rw [hl] at hm; exact absurd hm (by simp)
  | some q =>
    rw [hl] at hm
    simp only at hm
    have hq := invariant_monitorjob_loop susp t 0 q h hl
    by_cases hs : q.2.1 = State.STOPPED
    · rw [if_pos hs] at hm
      cases hmv : movejob (allocjob q.1).1 FG (allocjob q.1).2 with
      | none => rw [hmv] at hm; exact absurd hm (by simp)
      | some t2 =>
        rw [hmv] at hm
        simp only [Option.some.injEq] at hm
        rw [← hm]
        exact invariant_movejob _ _ _ _ (invariant_allocjob _ hq) hmv
    · rw [if_neg hs] at hm
      simp only [Option.some.injEq] at hm
      rw [← hm]; exact hq

theorem invariant_resumejob_fg (susp : List (List (Int × Int))) (t : JobTable) (j : Int)
    (r : JobTable × Bool) (h : state_invariant t)
    (hr : resumejob susp t j true = some r) : state_invariant r.1 := by
  unfold resumejob at hr
  simp only at hr
  generalize (if j < 0 then resume_scan t (njobmax t - 1) else j.toNat) = j1 at hr
  cases hg : t.get? j1 with
  | none =>
    rw [hg] at hr
    simp only [Option.some.injEq] at hr
    rw [← hr]; exact h
  | some job =>
    rw [hg] at hr
    simp only at hr
    by_cases hs : job.state = State.FINISHED
    · rw [if_pos hs] at hr
      simp only [Option.some.injEq] at hr
      rw [← hr]; exact h
    · rw [if_neg hs] at hr
      simp only [if_true] at hr
      by_cases hp : (t.set j1 { job with state := State.RUNNING }).fg.pgid = 0
      · rw [if_pos hp] at hr
        cases hmv : movejob (t.set j1 { job with state := State.RUNNING }) j1 FG with
        | none => rw [hmv] at hr; exact absurd hr (by simp)
        | some t2 =>
          rw [hmv] at hr
          simp only at hr
          cases hmo : monitorjob susp t2 with
          | none => rw [hmo] at hr; exact absurd hr (by simp)
          | some q =>
            rw [hmo] at hr
            simp only [Option.some.injEq] at hr
            rw [← hr]
            refine invariant_monitorjob susp t2 q ?_ hmo
            -- the moved job sits in the foreground slot, marked RUNNING
            unfold movejob at hmv
            rw [get_set_self t j1 _ job hg] at hmv
            simp only [FG, JobTable.get?] at hmv
            rw [if_pos hp] at hmv
            simp only [Option.some.injEq] at hmv
            rw [← hmv]
            cases j1 with
            | zero =>
              refine resumed_of_invariant _ ?_
              simp only [JobTable.set]
              intro J hJ
              simp only [JobTable.slots, List.mem_cons] at hJ
              rcases hJ with e | e
              · rw [e]; exact zero_job_consistent
              · exact h J (by simp [JobTable.slots, e])
            | succ k =>
              simp only [JobTable.set]
              refine ⟨?_, Or.inr rfl⟩
              intro J hJ
              simp only [List.set_set] at hJ
              rcases List.mem_or_eq_of_mem_set hJ with e | e
              · exact h J (by simp [JobTable.slots, e])
              · rw [e]; exact zero_job_consistent
      · rw [if_neg hp] at hr
        exact absurd hr (by simp)

theorem resumed_table_reachable : Reachable resumed_table := by
  have h0 := Reachable.init
  have h1 := Reachable.step _ _ h0 (Step.addjob 0 initjobs 7 true)
  have h2 := Reachable.step _ _ h1
    (Step.addproc (addjob 0 initjobs 7 true).1 1 7 ["cat"]
      { fg := zero_job,
        bg := [{ pgid := 7, proc := [{ pid := 7, state := State.RUNNING, exitcode := -1 }],
                 tmodes := 0, state := State.RUNNING, command := some "cat" }] } (by decide))
  have h3 := Reachable.step _ _ h2 (Step.reaper 7 4991 _)
  have h4 := Reachable.step _ _ h3
    (Step.resumejob [] _ 1 false (resumed_table, true) (by decide))
  exact h4

/-- C2, as stated, fails: after `addjob`, `addproc`, a reaper step for a stop and
`resumejob` in the background, the table holds a non-free job whose state is RUNNING while
the aggregate of its process states is STOPPED. -/
theorem state_invariant_not_kept_by_resumejob :
    ¬ (∀ t : JobTable, Reachable t → state_invariant t) := by
  intro h
  have h1 := h resumed_table resumed_table_reachable
    { pgid := 7, proc := [{ pid := 7, state := State.STOPPED, exitcode := -1 }],
      tmodes := 0, state := State.RUNNING, command := some "cat" }
    (by simp [JobTable.slots, resumed_table])
    (by decide)
  revert h1
  decide

/-- C2, amended. In every job table reachable from the initial table by `addjob` together
with the `addproc` that follows it, `addproc` on a free slot or on a job whose state is
RUNNING, `movejob`, `jobstate`/`deljob`, `killjob`, `watchjobs`, reaper steps, `resumejob`
into the foreground, and `resumejob` in the background followed by a reaper step, every
non-free job J satisfies `J.state = agg (states of J's processes)`. -/
theorem state_invariant_kept (t : JobTable) (h : KeptReachable t) : state_invariant t := by
  induction h with
  | init => exact invariant_init
  | step t t1 _ hs ih =>
    cases hs with
    | launch tm _ pgid bg pid argv _ ha => exact invariant_launch tm t t1 pgid bg pid argv ih ha
    | addproc _ j pid argv J _ hJ hr ha => exact invariant_addproc t t1 j pid argv J ih hJ hr ha
    | movejob _ src dst _ hm => exact invariant_movejob t t1 src dst ih hm
    | jobstate _ j status r hj => exact invariant_jobstate t j status r ih hj
    | resumejob_fg susp _ j r hr => exact invariant_resumejob_fg susp t j r ih hr
    | resumejob_bg_reaped susp _ j r pid status _ => exact invariant_sigchld_step pid status r.1
    | killjob _ j r _ => exact ih
    | watchjobs M which _ r hw => exact invariant_watchjobs M which t r ih hw
    | reaper pid status _ => exact invariant_sigchld_step pid status t

/-- C2, amended, at a concrete table: launch, stop, `resumejob` in the background and the
reaper step that follows. -/
theorem state_invariant_kept_witness :
    KeptReachable (sigchld_step 7 4991 resumed_table) ∧
      state_invariant (sigchld_step 7 4991 resumed_table) :=
  have hr : KeptReachable (sigchld_step 7 4991 resumed_table) :=
    KeptReachable.step _ _
      (KeptReachable.step _ _
        (KeptReachable.step _ _ KeptReachable.init
          (KeptStep.launch 0 initjobs 7 true 7 ["cat"]
            { fg := zero_job,
              bg := [{ pgid := 7,
                       proc := [{ pid := 7, state := State.RUNNING, exitcode := -1 }],
                       tmodes := 0, state := State.RUNNING, command := some "cat" }] }
            (by decide)))
        (KeptStep.reaper 7 4991 _))
      (KeptStep.resumejob_bg_reaped [] _ 1 (resumed_table, true) 7 4991 (by decide))
  ⟨hr, state_invariant_kept _ hr⟩

/-! ## Slot allocation -/

theorem find_free_spec (l : List job_t) (start : Nat) :
    (∀ j, find_free l start = some j →
      start ≤ j ∧ (∃ J, l[j - start]? = some J ∧ J.pgid = 0) ∧
      ∀ i J, start ≤ i → l[i - start]? = some J → J.pgid = 0 → j ≤ i) ∧
    (find_free l start = none → ∀ J ∈ l, J.pgid ≠ 0) := by
  induction l generalizing start with
  | nil => simp [find_free]
  | cons a l ih =>
    by_cases ha : a.pgid = 0
    · simp only [find_free, ha, if_true, Option.some.injEq]
      refine ⟨?_, by simp⟩
      intro j hj
      subst hj
      exact ⟨le_refl _, ⟨a, by simp, ha⟩, fun i _ hi _ _ => hi⟩
    · simp only [find_free, ha, if_false]
      refine ⟨?_, ?_⟩
      · intro j hj
        obtain ⟨h1, ⟨J, h2, h3⟩, h4⟩ := (ih (start + 1)).1 j hj
        refine ⟨by omega, ⟨J, ?_, h3⟩, ?_⟩
        · have : j - start = (j - (start + 1)) + 1 := by omega
          rw [this, List.getElem?_cons_succ]; exact h2
        · intro i J1 hi hJ1 h0
          by_cases hie : i = start
          · subst hie
            simp only [Nat.sub_self, List.getElem?_cons_zero, Option.some.injEq] at hJ1
            rw [← hJ1] at h0
            exact absurd h0 ha
          · have : i - start = (i - (start + 1)) + 1 := by omega
            rw [this, List.getElem?_cons_succ] at hJ1
            exact h4 i J1 (by omega) hJ1 h0
      · intro hn J hJ
        simp only [List.mem_cons] at hJ
        rcases hJ with e | e
        · rw [e]; exact ha
        · exact (ih (start + 1)).2 hn J e

theorem njobmax_set (t : JobTable) (j : Nat) (x : job_t) :
    njobmax (t.set j x) = njobmax t := by
  cases j with
  | zero => rfl
  | succ k => simp [JobTable.set, njobmax]

theorem get_pos (t : JobTable) (i : Nat) (h : 1 ≤ i) : t.get? i = t.bg[i - 1]? := by
  cases i with
  | zero => exact absurd h (by decide)
  | succ k => rfl

theorem allocjob_spec (t : JobTable) :
    1 ≤ (allocjob t).2 ∧
    (∃ J, (allocjob t).1.get? (allocjob t).2 = some J ∧ J.pgid = 0) ∧
    (∀ i, i < njobmax t → (allocjob t).1.get? i = t.get? i) ∧
    ((∃ i J, 1 ≤ i ∧ t.get? i = some J ∧ J.pgid = 0) →
      (allocjob t).1 = t ∧
      (∀ i J, 1 ≤ i → t.get? i = some J → J.pgid = 0 → (allocjob t).2 ≤ i)) ∧
    ((¬ ∃ i J, 1 ≤ i ∧ t.get? i = some J ∧ J.pgid = 0) →
      (allocjob t).2 = njobmax t ∧ njobmax (allocjob t).1 = njobmax t + 1) := by
  have hs := find_free_spec t.bg BG
  unfold allocjob
  cases hf : find_free t.bg BG with
  | some j =>
    obtain ⟨h1, ⟨J, h2, h3⟩, h4⟩ := hs.1 j hf
    simp only [BG] at h1 h2 h4
    refine ⟨h1, ⟨J, ?_, h3⟩, fun i _ => rfl, ?_, ?_⟩
    · simp only
      rw [get_pos t j h1]; exact h2
    · intro _
      refine ⟨rfl, ?_⟩
      intro i J1 hi hg h0
      rw [get_pos t i hi] at hg
      exact h4 i J1 hi hg h0
    · intro hn
      exact absurd ⟨j, J, h1, by rw [get_pos t j h1]; exact h2, h3⟩ hn
  | none =>
    have hall := hs.2 hf
    simp only [njobmax]
    refine ⟨by omega, ⟨zero_job, ?_, rfl⟩, ?_, ?_, ?_⟩
    · simp [JobTable.get?]
    · intro i hi
      cases i with
      | zero => rfl
      | succ k =>
        simp only [JobTable.get?]
        rw [List.getElem?_append_left (by omega)]
    · intro ⟨i, J, hi, hg, h0⟩
      rw [get_pos t i hi] at hg
      exact absurd h0 (hall J (List.getElem?_mem hg))
    · intro _
      simp

/-- C3. `addjob(pgid, bg)`: with `bg` false the index is 0 and the table keeps its length;
with `bg` true the index is the least `i ≥ 1` whose slot is free when there is one (the
table keeps its length), and otherwise the old table length, the table having grown by
exactly one slot. The chosen slot then holds the given pgid, state RUNNING, no process and
no command, and every other slot is unchanged. -/
theorem addjob_slot_choice (tm : Nat) (t : JobTable) (pgid : Int) (bg : Bool) :
    (bg = false → (addjob tm t pgid bg).2 = 0 ∧
      njobmax (addjob tm t pgid bg).1 = njobmax t) ∧
    (bg = true →
      ((∃ i J, 1 ≤ i ∧ t.get? i = some J ∧ J.pgid = 0) →
        1 ≤ (addjob tm t pgid bg).2 ∧
        (∃ J, t.get? (addjob tm t pgid bg).2 = some J ∧ J.pgid = 0) ∧
        (∀ i J, 1 ≤ i → t.get? i = some J → J.pgid = 0 → (addjob tm t pgid bg).2 ≤ i) ∧
        njobmax (addjob tm t pgid bg).1 = njobmax t) ∧
      ((¬ ∃ i J, 1 ≤ i ∧ t.get? i = some J ∧ J.pgid = 0) →
        (addjob tm t pgid bg).2 = njobmax t ∧
        njobmax (addjob tm t pgid bg).1 = njobmax t + 1)) ∧
    (∃ J, (addjob tm t pgid bg).1.get? (addjob tm t pgid bg).2 = some J ∧
      J.pgid = pgid ∧ J.state = State.RUNNING ∧ J.proc = [] ∧ J.command = none ∧
      J.tmodes = tm) ∧
    (∀ i, i ≠ (addjob tm t pgid bg).2 → i < njobmax t →
      (addjob tm t pgid bg).1.get? i = t.get? i) := by
  have ha := allocjob_spec t
  cases bg with
  | false =>
    simp only [addjob, FG, Bool.false_eq_true, if_false, njobmax_set, true_implies,
      false_implies, and_self, true_and]
    refine ⟨⟨fresh_job tm pgid, rfl, rfl, rfl, rfl, rfl, rfl⟩, ?_⟩
    intro i hi _
    exact get_set_ne t i 0 _ hi
  | true =>
    obtain ⟨h1, ⟨J0, h2, _⟩, h3, h4, h5⟩ := ha
    simp only [addjob, if_true, njobmax_set, true_implies, Bool.true_eq_false, false_implies,
      true_and]
    refine ⟨⟨?_, ?_⟩, ⟨fresh_job tm pgid, get_set_self _ _ _ J0 h2, rfl, rfl, rfl, rfl, rfl⟩,
      ?_⟩
    · intro hex
      obtain ⟨e, hmin⟩ := h4 hex
      refine ⟨h1, ?_, hmin, by rw [e]⟩
      rw [e] at h2
      exact ⟨J0, h2, by assumption⟩
    · intro hn
      exact h5 hn
    · intro i hi hlt
      rw [get_set_ne _ i _ _ hi]
      exact h3 i hlt

/-- C3 at concrete tables: slot 2 is the least free background slot of a five-slot
table; a two-slot table without free background slot grows to index 2. -/
theorem addjob_slot_choice_witness :
    (addjob 3
        { fg := zero_job,
          bg := [fresh_job 0 5, zero_job, fresh_job 0 6, zero_job] } 9 true).2 = 2 ∧
      (addjob 3 { fg := zero_job, bg := [fresh_job 0 5] } 9 true).2 = 2 ∧
      (∀ i, i ≠ (addjob 3 { fg := zero_job, bg := [fresh_job 0 5] } 9 true).2 →
        i < njobmax { fg := zero_job, bg := [fresh_job 0 5] } →
        (addjob 3 { fg := zero_job, bg := [fresh_job 0 5] } 9 true).1.get? i =
          JobTable.get? { fg := zero_job, bg := [fresh_job 0 5] } i) :=
  ⟨by decide, by decide,
    (addjob_slot_choice 3 { fg := zero_job, bg := [fresh_job 0 5] } 9 true).2.2.2⟩

/-! ## State query -/

theorem reap_proc_pid (pid status : Int) (p : proc_t) : (reap_proc pid status p).pid = p.pid := by
  unfold reap_proc
  split
  · split
    · rfl
    · split
      · rfl
      · split <;> rfl
  · rfl

theorem reap_one_pid (pid status : Int) (p : proc_t) : (reap_one pid status p).pid = p.pid := by
  unfold reap_one
  split
  · rfl
  · exact reap_proc_pid pid status p

theorem reap_job_pids (pid status : Int) (J : job_t) :
    (reap_job pid status J).proc.map (·.pid) = J.proc.map (·.pid) := by
  by_cases h : J.pgid = 0
  · simp [reap_job, h]
  · rw [reap_job_proc pid status J h, List.map_map]
    apply List.map_congr_left
    intro p _
    exact reap_one_pid pid status p

theorem sigchld_handler_fg (reaped : List (Int × Int)) :
    ∀ t : JobTable, (sigchld_handler reaped t).fg.pgid = t.fg.pgid ∧
      (sigchld_handler reaped t).fg.proc.map (·.pid) = t.fg.proc.map (·.pid) := by
  induction reaped with
  | nil => intro t; exact ⟨rfl, rfl⟩
  | cons ps rest ih =>
    intro t
    simp only [sigchld_handler, List.foldl_cons]
    have h := ih (sigchld_step ps.1 ps.2 t)
    simp only [sigchld_handler] at h
    rw [h.1, h.2]
    exact ⟨reap_job_pgid _ _ _, reap_job_pids _ _ _⟩

theorem after_suspensions_fg (susp : List (List (Int × Int))) :
    ∀ t : JobTable, (after_suspensions susp t).fg.pgid = t.fg.pgid ∧
      (after_suspensions susp t).fg.proc.map (·.pid) = t.fg.proc.map (·.pid) := by
  induction susp with
  | nil => intro t; exact ⟨rfl, rfl⟩
  | cons reaped rest ih =>
    intro t
    simp only [after_suspensions, List.foldl_cons]
    have h := ih (sigchld_handler reaped t)
    simp only [after_suspensions] at h
    rw [h.1, h.2]
    exact sigchld_handler_fg reaped t

theorem monitorjob_loop_done (susp : List (List (Int × Int))) (t : JobTable) (status : Int)
    (h : t.fg.state ≠ State.RUNNING) :
    monitorjob_loop susp t status = jobstate t FG status := by
  have key : ∀ q : JobTable × State × Int, jobstate t FG status = some q →
      (q.2.1 = State.FINISHED ∨ q.2.1 = State.STOPPED) := by
    intro q hq
    obtain ⟨job, hg, hst, _⟩ := jobstate_state t FG status q hq
    simp only [FG, JobTable.get?, Option.some.injEq] at hg
    rw [hst, ← hg]
    cases hs : t.fg.state with
    | FINISHED => exact Or.inl rfl
    | RUNNING => exact absurd hs h
    | STOPPED => exact Or.inr rfl
  cases susp with
  | nil =>
    unfold monitorjob_loop
    cases hj : jobstate t FG status with
    | none => rfl
    | some q => simp only; rw [if_pos (key q hj)]
  | cons reaped rest =>
    unfold monitorjob_loop
    cases hj : jobstate t FG status with
    | none => rfl
    | some q => simp only; rw [if_pos (key q hj)]

theorem monitorjob_loop_running (reaped : List (Int × Int)) (rest : List (List (Int × Int)))
    (t : JobTable) (status : Int) (h : t.fg.state = State.RUNNING) :
    monitorjob_loop (reaped :: rest) t status =
      monitorjob_loop rest (sigchld_handler reaped t) status := by
  have hj : jobstate t FG status = some (t, State.RUNNING, status) := by
    simp [jobstate, FG, JobTable.get?, h]
  rw [monitorjob_loop, hj]
  simp

theorem monitorjob_loop_eq (susp : List (List (Int × Int))) :
    ∀ (t : JobTable) (status : Int),
      (∀ k, k < susp.length → (after_suspensions (susp.take k) t).fg.state = State.RUNNING) →
      (after_suspensions susp t).fg.state ≠ State.RUNNING →
      monitorjob_loop susp t status = jobstate (after_suspensions susp t) FG status := by
  induction susp with
  | nil =>
    intro t status _ hE
    exact monitorjob_loop_done [] t status hE
  | cons reaped rest ih =>
    intro t status hrun hE
    have h0 : t.fg.state = State.RUNNING := hrun 0 (by simp)
    rw [monitorjob_loop_running reaped rest t status h0]
    have := ih (sigchld_handler reaped t) status (fun k hk => by
      have := hrun (k + 1) (by simp only [List.length_cons]; omega)
      simpa [after_suspensions] using this) (by simpa [after_suspensions] using hE)
    rw [this]
    simp [after_suspensions]

/-- C10. Foreground monitor. The foreground slot holds a job (non-zero pgid, at least one
process); the handlers that run during the returns of `Sigsuspend` leave the job RUNNING
until the last one. If the job is then STOPPED, `monitorjob` returns 0, the foreground slot
is zero-filled, and the job record sits in the slot chosen by `allocjob`: the least free
index `≥ 1` when there is one (table length kept), else the old table length (table grown
by one); it has the pgid and the pids of the job that was monitored, and the other slots
are untouched. If the job is then FINISHED, `monitorjob` returns the wait-status stored in
its last process and the foreground slot is free. -/
theorem monitorjob_stopped_or_finished (t : JobTable) (susp : List (List (Int × Int)))
    (hjob : t.fg.pgid ≠ 0 ∧ t.fg.proc ≠ [])
    (hrun : ∀ k, k < susp.length →
      (after_suspensions (susp.take k) t).fg.state = State.RUNNING) :
    ((after_suspensions susp t).fg.state = State.STOPPED →
      ∃ t1, monitorjob susp t = some (t1, 0) ∧ t1.fg = zero_job ∧
        1 ≤ (allocjob (after_suspensions susp t)).2 ∧
        t1.get? (allocjob (after_suspensions susp t)).2 =
          some (after_suspensions susp t).fg ∧
        (after_suspensions susp t).fg.pgid = t.fg.pgid ∧
        (after_suspensions susp t).fg.proc.map (·.pid) = t.fg.proc.map (·.pid) ∧
        ((∃ i J, 1 ≤ i ∧ (after_suspensions susp t).get? i = some J ∧ J.pgid = 0) →
          njobmax t1 = njobmax (after_suspensions susp t) ∧
          (∃ J, (after_suspensions susp t).get? (allocjob (after_suspensions susp t)).2 =
            some J ∧ J.pgid = 0) ∧
          ∀ i J, 1 ≤ i → (after_suspensions susp t).get? i = some J → J.pgid = 0 →
            (allocjob (after_suspensions susp t)).2 ≤ i) ∧
        ((¬ ∃ i J, 1 ≤ i ∧ (after_suspensions susp t).get? i = some J ∧ J.pgid = 0) →
          (allocjob (after_suspensions susp t)).2 = njobmax (after_suspensions susp t) ∧
          njobmax t1 = njobmax (after_suspensions susp t) + 1) ∧
        ∀ i, i ≠ 0 → i ≠ (allocjob (after_suspensions susp t)).2 →
          i < njobmax (after_suspensions susp t) →
          t1.get? i = (after_suspensions susp t).get? i) ∧
    ((after_suspensions susp t).fg.state = State.FINISHED →
      ∃ t1 p, monitorjob susp t = some (t1, p.exitcode) ∧
        (after_suspensions susp t).fg.proc.getLast? = some p ∧
        t1.fg.pgid = 0 ∧ t1.fg.proc = [] ∧ t1.fg.command = none ∧
        t1.bg = (after_suspensions susp t).bg) := by
  obtain ⟨hpg, hpids⟩ := after_suspensions_fg susp t
  have hne : (after_suspensions susp t).fg.proc ≠ [] := by
    intro h0
    rw [h0] at hpids
    simp only [List.map_nil] at hpids
    exact hjob.2 (List.map_eq_nil_iff.1 hpids.symm)
  have hloop : (after_suspensions susp t).fg.state ≠ State.RUNNING →
      monitorjob_loop susp t 0 = jobstate (after_suspensions susp t) FG 0 :=
    monitorjob_loop_eq susp t 0 hrun
  generalize after_suspensions susp t = tE at hpg hpids hne hloop ⊢
  obtain ⟨hk1, ⟨J0, hJ0, hJ0free⟩, hkeep, hfree, hgrow⟩ := allocjob_spec tE
  refine ⟨?_, ?_⟩
  · intro hs
    have hj : jobstate tE FG 0 = some (tE, State.STOPPED, 0) := by
      simp [jobstate, FG, JobTable.get?, hs]
    have hfg : (allocjob tE).1.fg = tE.fg := by
      have := hkeep 0 (by simp [njobmax])
      simpa [JobTable.get?] using this
    have hmv : movejob (allocjob tE).1 FG (allocjob tE).2 =
        some (((allocjob tE).1.set (allocjob tE).2 tE.fg).set 0 zero_job) := by
      unfold movejob
      rw [hJ0]
      simp only [FG, JobTable.get?, hJ0free, if_true, hfg]
    have hk0 : (0 : Nat) ≠ (allocjob tE).2 := by omega
    refine ⟨((allocjob tE).1.set (allocjob tE).2 tE.fg).set 0 zero_job, ?_, rfl, hk1, ?_,
      hpg, hpids, ?_, ?_, ?_⟩
    · unfold monitorjob
      rw [hloop (by rw [hs]; decide), hj]
      simp only [if_true]
      rw [hmv]
    · rw [get_set_ne _ _ _ _ (Ne.symm hk0)]
      exact get_set_self _ _ _ J0 hJ0
    · intro hex
      obtain ⟨e, hmin⟩ := hfree hex
      refine ⟨?_, ⟨J0, ?_, hJ0free⟩, hmin⟩
      · rw [njobmax_set, njobmax_set, e]
      · rw [e] at hJ0
        exact hJ0
    · intro hn
      obtain ⟨e1, e2⟩ := hgrow hn
      refine ⟨e1, ?_⟩
      rw [njobmax_set, njobmax_set, e2]
    · intro i hi0 hik hlt
      rw [get_set_ne _ _ _ _ hi0, get_set_ne _ _ _ _ hik]
      exact hkeep i hlt
  · intro hs
    obtain ⟨p, hp⟩ : ∃ p, tE.fg.proc.getLast? = some p := by
      cases hl : tE.fg.proc.getLast? with
      | none => exact absurd (List.getLast?_eq_none_iff.1 hl) hne
      | some p => exact ⟨p, rfl⟩
    have hj : jobstate tE FG 0 =
        some (tE.set 0 { tE.fg with pgid := 0, command := none, proc := [] },
          State.FINISHED, p.exitcode) := by
      simp [jobstate, FG, JobTable.get?, hs, exitcode, hp, deljob]
    refine ⟨tE.set 0 { tE.fg with pgid := 0, command := none, proc := [] }, p, ?_, hp,
      rfl, rfl, rfl, rfl⟩
    unfold monitorjob
    rw [hloop (by rw [hs]; decide), hj]
    simp

/-- C10 at a concrete table: the foreground job `cat` is stopped during the first
suspension and moved to the new slot 1; or it is killed by signal 9 during the second. -/
theorem monitorjob_stopped_or_finished_witness :
    (after_suspensions [[(7, 4991)]]
        { fg := { pgid := 7, proc := [⟨7, State.RUNNING, -1⟩], tmodes := 0,
                  state := State.RUNNING, command := some "cat" },
          bg := [] }).fg.state = State.STOPPED ∧
      monitorjob [[(7, 4991)]]
        { fg := { pgid := 7, proc := [⟨7, State.RUNNING, -1⟩], tmodes := 0,
                  state := State.RUNNING, command := some "cat" },
          bg := [] } =
        some ({ fg := zero_job,
                bg := [{ pgid := 7, proc := [⟨7, State.STOPPED, -1⟩], tmodes := 0,
                         state := State.STOPPED, command := some "cat" }] }, 0) ∧
      ∃ t1 p,
        monitorjob [[], [(7, 9)]]
          { fg := { pgid := 7, proc := [⟨7, State.RUNNING, -1⟩], tmodes := 0,
                    state := State.RUNNING, command := some "cat" },
            bg := [] } = some (t1, p.exitcode) ∧
        (after_suspensions [[], [(7, 9)]]
          { fg := { pgid := 7, proc := [⟨7, State.RUNNING, -1⟩], tmodes := 0,
                    state := State.RUNNING, command := some "cat" },
            bg := [] }).fg.proc.getLast? = some p ∧
        t1.fg.pgid = 0 ∧ t1.fg.proc = [] ∧ t1.fg.command = none ∧
        t1.bg = (after_suspensions [[], [(7, 9)]]
          { fg := { pgid := 7, proc := [⟨7, State.RUNNING, -1⟩], tmodes := 0,
                    state := State.RUNNING, command := some "cat" },
            bg := [] }).bg :=
  ⟨by decide, by decide,
    (monitorjob_stopped_or_finished
      { fg := { pgid := 7, proc := [⟨7, State.RUNNING, -1⟩], tmodes := 0,
                state := State.RUNNING, command := some "cat" },
        bg := [] }
      [[], [(7, 9)]] (by decide) (by decide)).2 (by decide)⟩

/-! ## Job reporter -/

theorem report_eq_spec_line (which : Which) (j : Nat) (J : job_t)
    (cmd : String) (e : Int) (hc : J.command = some cmd)
    (he : J.state = State.FINISHED →
      ∃ p, J.proc.getLast? = some p ∧ e = p.exitcode ∧
        (WIFEXITED p.exitcode = true ∨ WIFSIGNALED p.exitcode = true))
    (hp : J.pgid ≠ 0) :
    report which j cmd J.state e = if reported which J then spec_line j J else "" := by
  unfold report reported spec_line
  by_cases hw : which = Which.ALL ∨ which = Which.only J.state
  · have hd : decide (J.pgid ≠ 0 ∧ (which = Which.ALL ∨ which = Which.only J.state)) = true :=
      decide_eq_true ⟨hp, hw⟩
    rw [if_pos hw, if_pos hd]
    cases hs : J.state with
    | RUNNING => simp [hc]
    | STOPPED => simp [hc]
    | FINISHED =>
      obtain ⟨p, hl, hep, hx⟩ := he hs
      simp only [hl, hc, Option.getD_some, hep]
      by_cases h1 : WIFEXITED p.exitcode = true
      · rw [if_pos h1, if_pos h1]
      · rw [if_neg h1, if_neg h1]
        rcases hx with h2 | h2
        · exact absurd h2 h1
        · rw [if_pos h2]
  · have hd : ¬ decide (J.pgid ≠ 0 ∧ (which = Which.ALL ∨ which = Which.only J.state)) = true := by
      intro h
      exact hw (of_decide_eq_true h).2
    rw [if_neg hw, if_neg hd]

theorem getElem?_append_cons (pre rest : List job_t) (J : job_t) :
    (pre ++ J :: rest)[pre.length]? = some J := by
  induction pre with
  | nil => simp
  | cons a pre ih => simpa using ih

theorem jobstate_bg (t : JobTable) (pre rest : List job_t) (J : job_t)
    (hb : t.bg = pre ++ J :: rest)
    (hf : J.state = State.FINISHED → ∃ p, J.proc.getLast? = some p) :
    ∃ t1 e, jobstate t (pre.length + 1) 0 = some (t1, J.state, e) ∧
      (∃ J1, t1.bg = pre ++ J1 :: rest) ∧
      (J.state = State.FINISHED → ∃ p, J.proc.getLast? = some p ∧ e = p.exitcode) := by
  have hg : t.get? (pre.length + 1) = some J := by
    simp only [JobTable.get?, hb]
    exact getElem?_append_cons pre rest J
  by_cases hs : J.state = State.FINISHED
  · obtain ⟨p, hl⟩ := hf hs
    refine ⟨t.set (pre.length + 1) { J with pgid := 0, command := none, proc := [] },
      p.exitcode, ?_, ⟨{ J with pgid := 0, command := none, proc := [] }, ?_⟩,
      fun _ => ⟨p, hl, rfl⟩⟩
    · simp [jobstate, hg, hs, exitcode, hl, deljob]
    · simp [JobTable.set, hb]
  · refine ⟨t, 0, ?_, ⟨J, hb⟩, fun h => absurd h hs⟩
    simp [jobstate, hg, hs]

theorem watchjobs_loop_spec (MAXLINE : Nat) (which : Which) (rest : List job_t) :
    ∀ (pre : List job_t) (t : JobTable) (out : String),
      t.bg = pre ++ rest → (∀ J ∈ rest, reportable MAXLINE J) →
      ∃ t1, watchjobs_loop MAXLINE which rest.length (pre.length + 1) t out =
        some (t1, out ++
          ((((List.range' (pre.length + 1) rest.length).zip rest).filter
              (fun x => reported which x.2)).map
            (fun x => spec_line x.1 x.2)).foldr (fun line text => line ++ text) "") := by
  induction rest with
  | nil =>
    intro pre t out _ _
    exact ⟨t, by simp [watchjobs_loop]⟩
  | cons J rest ih =>
    intro pre t out hb hwf
    have hg : t.get? (pre.length + 1) = some J := by
      simp only [JobTable.get?, hb]
      exact getElem?_append_cons pre rest J
    have hrest : ∀ J1 ∈ rest, reportable MAXLINE J1 :=
      fun J1 h1 => hwf J1 (List.mem_cons_of_mem _ h1)
    simp only [List.length_cons, watchjobs_loop, hg, List.range'_succ, List.zip_cons_cons,
      List.filter_cons]
    by_cases hp : J.pgid = 0
    · have hnr : reported which J = false := by simp [reported, hp]
      rw [if_pos hp]
      simp only [hnr, Bool.false_eq_true, if_false]
      have := ih (pre ++ [J]) t out (by simp [hb]) hrest
      simpa using this
    · obtain ⟨⟨cmd, hc, hl⟩, hfin⟩ := hwf J (List.mem_cons_self _ _) hp
      obtain ⟨t1, e, hj, ⟨J1, hb1⟩, he⟩ := jobstate_bg t pre rest J hb
        (fun h => (hfin h).imp fun p hp => hp.1)
      rw [if_neg hp]
      simp only [hc, hl, if_true, hj]
      have hline := report_eq_spec_line which (pre.length + 1) J cmd e hc (by
        intro h
        obtain ⟨p, h1, h2⟩ := he h
        obtain ⟨p2, h3, h4⟩ := hfin h
        rw [h1] at h3
        simp only [Option.some.injEq] at h3
        subst h3
        exact ⟨p, h1, h2, h4⟩) hp
      obtain ⟨t2, h2⟩ := ih (pre ++ [J1]) t1 (out ++ report which (pre.length + 1) cmd J.state e)
        (by simp [hb1]) hrest
      refine ⟨t2, ?_⟩
      simp only [List.length_append, List.length_singleton] at h2
      rw [h2, hline]
      by_cases hr : reported which J = true
      · simp [hr, String.append_assoc]
      · simp [hr]

/-- Where `watchjobs` prints the text of spec §4.7. For every filter and every job table
in which each non-free slot `idx ≥ 1` has a command text that `strcpy` can copy into the
`MAXLINE` buffer and, when its state is FINISHED, a last process whose stored wait-status
is an exit or a termination by signal: `watchjobs` prints one line per non-free slot
`idx ≥ 1` whose state passes the filter, in increasing index order, and nothing for
slot 0. -/
theorem watchjobs_report (MAXLINE : Nat) (which : Which) (t : JobTable)
    (hwf : ∀ J ∈ t.bg, reportable MAXLINE J) :
    ∃ t1, watchjobs MAXLINE which t = some (t1, spec_report which t) := by
  obtain ⟨t1, h⟩ := watchjobs_loop_spec MAXLINE which t.bg [] t "" rfl hwf
  refine ⟨t1, ?_⟩
  simp only [List.length_nil, Nat.zero_add, String.empty_append] at h
  simp only [watchjobs, njobmax, BG, Nat.add_sub_cancel, spec_report]
  exact h

/-- The report at a concrete table with the filter FINISHED: slots 1 and 4 are reported. -/
theorem watchjobs_report_example :
    ∃ t1,
      watchjobs 4096 (Which.only State.FINISHED)
        { fg := { pgid := 3, proc := [⟨3, State.RUNNING, -1⟩], tmodes := 0,
                  state := State.RUNNING, command := some "vi" },
          bg := [{ pgid := 5, proc := [⟨5, State.FINISHED, 256⟩], tmodes := 0,
                   state := State.FINISHED, command := some "sleep 1" },
                 zero_job,
                 { pgid := 7, proc := [⟨7, State.STOPPED, -1⟩], tmodes := 0,
                   state := State.STOPPED, command := some "cat" },
                 { pgid := 8, proc := [⟨8, State.FINISHED, 0⟩, ⟨9, State.FINISHED, 9⟩],
                   tmodes := 0, state := State.FINISHED, command := some "a | b" }] } =
        some (t1, "[1] exited 'sleep 1', status=1\n[4] killed 'a | b' by signal 9\n") :=
  watchjobs_report 4096 (Which.only State.FINISHED) _ (by
    intro J hJ
    simp only [List.mem_cons, List.mem_singleton, List.not_mem_nil, or_false] at hJ
    rcases hJ with e | e | e | e
    · subst e
      exact fun _ => ⟨⟨_, rfl, by decide⟩, fun _ => ⟨_, rfl, by decide⟩⟩
    · subst e
      exact fun h => absurd rfl h
    · subst e
      exact fun _ => ⟨⟨_, rfl, by decide⟩, fun h => absurd h (by decide)⟩
    · subst e
      exact fun _ => ⟨⟨_, rfl, by decide⟩, fun _ => ⟨_, rfl, by decide⟩⟩)

theorem long_command_size (MAXLINE : Nat) :
    (long_command MAXLINE).utf8ByteSize = MAXLINE := by
  unfold long_command
  induction MAXLINE with
  | zero => rfl
  | succ n ih =>
    simp only [List.replicate_succ, String.utf8ByteSize, String.utf8ByteSize.go] at ih ⊢
    rw [ih]
    rfl

/-- C9, the code at a failing input. Whatever the size `MAXLINE` of the buffer, the command
line made of one word of `MAXLINE` bytes and `&` is launched by `do_job` as background job
1 with that word as command text; the text has `MAXLINE` bytes, so the `strcpy` of
`watchjobs` into its `malloc(MAXLINE)` buffer writes past the end: under every filter the
call has no defined result, where spec §4.7 owes the line `[1] running '..'` for ALL. -/
theorem watchjobs_overflows_command_buffer (MAXLINE : Nat) (which : Which) :
    (do_job example_env [] example_world
        [token_t.word (long_command MAXLINE), token_t.T_NULL] 1 true).map
      (fun r => r.1.jobs) = Except.ok (long_command_table MAXLINE) ∧
    (long_command MAXLINE).utf8ByteSize = MAXLINE ∧
    watchjobs MAXLINE which (long_command_table MAXLINE) = none ∧
    spec_report Which.ALL (long_command_table MAXLINE) =
      "[1] running '" ++ long_command MAXLINE ++ "'\n" := by
  refine ⟨?_, long_command_size MAXLINE, ?_, ?_⟩
  · simp [do_job, do_redir, do_redir_loop, example_env, example_world, MaybeClose, addjob,
      allocjob, find_free, initjobs, addproc_tokens, argv_of, words_of, addproc, mkcommand,
      mkcommand_rest, strapp, JobTable.get?, JobTable.set, jobcmd, njobmax, BG, zero_job,
      fresh_job, long_command_table, Except.map]
  · simp [watchjobs, watchjobs_loop, long_command_table, njobmax, BG, JobTable.get?,
      long_command_size]
  · simp [spec_report, long_command_table, spec_line, reported, BG, List.range']
    rfl

/-! ## Launcher: worked inputs -/

/-- C5, the code at a failing input. For the tokens of `< in cat` the redirection pass
returns `n = 1` but leaves `cat` at index 2: the first `n` tokens are `[T_NULL]`, so the
`argv` that starts at `token` is empty, while the tokens that are neither a marker nor a
file name are `[cat]`. For `cat < in -n` it returns `n = 2` with `-n` left at index 3,
behind a `T_NULL`. With the redirections after the last word, as in `cat -n < in > out`,
the first `n` tokens are the words. -/
theorem do_redir_leading_redirection_loses_word :
    do_redir example_env 3
        { token := [token_t.T_INPUT, token_t.word "in", token_t.word "cat", token_t.T_NULL],
          input := -1, output := -1, fds := [0, 1, 2, 3] } =
      Except.ok
        ({ token := [token_t.T_NULL, token_t.T_NULL, token_t.word "cat", token_t.T_NULL],
           input := 4, output := -1, fds := [4, 0, 1, 2, 3] }, 1) ∧
    erase_redirections [token_t.T_INPUT, token_t.word "in", token_t.word "cat"] =
      [token_t.word "cat"] ∧
    [token_t.T_NULL, token_t.T_NULL, token_t.word "cat", token_t.T_NULL].take 1 ≠
      [token_t.word "cat"] ∧
    argv_of [token_t.T_NULL, token_t.T_NULL, token_t.word "cat", token_t.T_NULL] = [] ∧
    do_redir example_env 4
        { token := [token_t.word "cat", token_t.T_INPUT, token_t.word "in",
                    token_t.word "-n", token_t.T_NULL],
          input := -1, output := -1, fds := [0, 1, 2, 3] } =
      Except.ok
        ({ token := [token_t.word "cat", token_t.T_NULL, token_t.T_NULL,
                     token_t.word "-n", token_t.T_NULL],
           input := 4, output := -1, fds := [4, 0, 1, 2, 3] }, 2) ∧
    do_redir example_env 6
        { token := [token_t.word "cat", token_t.word "-n", token_t.T_INPUT,
                    token_t.word "in", token_t.T_OUTPUT, token_t.word "out", token_t.T_NULL],
          input := -1, output := -1, fds := [0, 1, 2, 3] } =
      Except.ok
        ({ token := [token_t.word "cat", token_t.word "-n", token_t.T_NULL, token_t.T_NULL,
                     token_t.T_NULL, token_t.T_NULL, token_t.T_NULL],
           input := 4, output := 5, fds := [5, 4, 0, 1, 2, 3] }, 2) := by
  refine ⟨by rfl, by rfl, by decide, by rfl, by rfl, by rfl⟩

/-- C6, the code at a failing input. For the tokens of `a | b < f c` in the background the
launcher forks two stages and wires them through one pipe (stage 0 writes its write end,
stage 1 would read its read end but for the redirection), and registers one job with
pgid 100 and pids 100, 101; but the second stage runs `argv = [b]`: the word `c` after the
redirection is lost, where its segment without the redirection is `[b, c]`. For
`a | < f b` the second stage is forked with an empty `argv` and `addproc` passes
`argv[0] == NULL` to `strapp`, so no job with two processes is registered. -/
theorem do_pipeline_stage_argv_loses_word :
    (do_pipeline_launch example_env example_world
        [token_t.word "a", token_t.T_PIPE, token_t.word "b", token_t.T_INPUT,
          token_t.word "f", token_t.word "c", token_t.T_NULL] 6 true).map
      (fun p => (p.w.children, p.w.pipes, p.w.jobs, p.job)) =
      Except.ok
        ([{ pid := 100, pgid := 0, input := -1, output := 5, argv := [token_t.word "a"],
            bg := true },
          { pid := 101, pgid := 100, input := 4, output := -1, argv := [token_t.word "b"],
            bg := true }],
         [(4, 5)],
         { fg := zero_job,
           bg := [{ pgid := 100,
                    proc := [{ pid := 100, state := State.RUNNING, exitcode := -1 },
                             { pid := 101, state := State.RUNNING, exitcode := -1 }],
                    tmodes := 0, state := State.RUNNING, command := some "a | b" }] },
         some 1) ∧
    erase_redirections
        [token_t.word "b", token_t.T_INPUT, token_t.word "f", token_t.word "c"] =
      [token_t.word "b", token_t.word "c"] ∧
    do_pipeline_launch example_env example_world
        [token_t.word "a", token_t.T_PIPE, token_t.T_INPUT, token_t.word "f",
          token_t.word "b", token_t.T_NULL] 5 true =
      Except.error Abort.undefined := by
  refine ⟨by rfl, by rfl, by rfl⟩

/-- C7, the code at a failing input. For the tokens of `cd > out` in the foreground the
built-in accepts the command and `do_job` returns its exit code at once: the descriptor 4
that `do_redir` opened for `out` is still open in the shell, which had 0, 1, 2, 3 open;
the same through `eval`. -/
theorem do_job_builtin_leaves_descriptor_open :
    do_job example_env [] example_world
        [token_t.word "cd", token_t.T_OUTPUT, token_t.word "out", token_t.T_NULL] 3 false =
      Except.ok ({ example_world with fds := [4, 0, 1, 2, 3] }, 0) ∧
    eval example_env [] example_world
        [token_t.word "cd", token_t.T_OUTPUT, token_t.word "out", token_t.T_NULL] 3 =
      Except.ok { example_world with fds := [4, 0, 1, 2, 3] } ∧
    example_world.fds = [0, 1, 2, 3] ∧
    (4 : Int) ∈ ([4, 0, 1, 2, 3] : List Int) ∧ (4 : Int) ∉ example_world.fds := by
  refine ⟨by rfl, by rfl, by rfl, by decide, by decide⟩

/-- C8, the code at a failing input. For the tokens of `a |` (the stage after the last pipe
marker is empty) `do_pipeline` reports no error: the loop ends before the empty stage, one
child is forked and registered as job 1 with command `a`; both ends of the pipe made at
the start stay open. In the foreground (`eval` of `a |`, the child exiting with status 0)
the command line runs to completion in the same way. An empty first stage (`| a`) is
reported. -/
theorem do_pipeline_trailing_pipe_not_rejected :
    do_pipeline example_env [] example_world
        [token_t.word "a", token_t.T_PIPE, token_t.T_NULL] 2 true =
      Except.ok
        ({ fds := [5, 4, 0, 1, 2, 3],
           jobs :=
             { fg := zero_job,
               bg := [{ pgid := 100,
                        proc := [{ pid := 100, state := State.RUNNING, exitcode := -1 }],
                        tmodes := 0, state := State.RUNNING, command := some "a" }] },
           nfork := 1,
           children := [{ pid := 100, pgid := 0, input := -1, output := -1,
                          argv := [token_t.word "a"], bg := true }],
           pipes := [(4, 5)],
           out := "" }, 0) ∧
    eval example_env [[(100, 0)]] example_world
        [token_t.word "a", token_t.T_PIPE, token_t.T_NULL] 2 =
      Except.ok
        { fds := [5, 4, 0, 1, 2, 3],
          jobs := initjobs,
          nfork := 1,
          children := [{ pid := 100, pgid := 0, input := -1, output := -1,
                         argv := [token_t.word "a"], bg := false }],
          pipes := [(4, 5)],
          out := "" } ∧
    do_pipeline example_env [] example_world
        [token_t.T_PIPE, token_t.word "a", token_t.T_NULL] 2 true =
      Except.error (Abort.app_error "ERROR: Command line is not well formed!") := by
  refine ⟨by rfl, by rfl, by rfl⟩

/-! ## Command text -/

theorem intercalate_go_append (a b s : String) (ws : List String) :
    String.intercalate.go (a ++ b) s ws = a ++ String.intercalate.go b s ws := by
  induction ws generalizing b with
  | nil => rfl
  | cons w ws ih =>
    simp only [String.intercalate.go]
    rw [String.append_assoc, String.append_assoc, ih, String.append_assoc]

theorem mkcommand_rest_some (acc : String) (ws : List String) :
    mkcommand_rest (some acc) ws = some (String.intercalate.go acc " " ws) := by
  induction ws generalizing acc with
  | nil => rfl
  | cons w ws ih =>
    simp only [mkcommand_rest, strapp, String.intercalate.go]
    exact ih _

theorem mkcommand_first (w : String) (ws : List String) :
    mkcommand none (w :: ws) = some (some (String.intercalate " " (w :: ws))) := by
  simp [mkcommand, strapp, mkcommand_rest_some, String.intercalate]

theorem mkcommand_next (c w : String) (ws : List String) :
    mkcommand (some c) (w :: ws) =
      some (some (c ++ " | " ++ String.intercalate " " (w :: ws))) := by
  simp only [mkcommand, Option.isSome_some, if_true, strapp, mkcommand_rest_some,
    String.intercalate]
  rw [intercalate_go_append]

theorem addproc_step (t : JobTable) (j : Nat) (J : job_t) (pid : Int) (w : String)
    (ws : List String) (h : t.get? j = some J) :
    addproc t j pid (w :: ws) =
      some (t.set j { J with
        proc := J.proc ++ [{ pid := pid, state := State.RUNNING, exitcode := -1 }],
        command := some (match J.command with
          | none => String.intercalate " " (w :: ws)
          | some c => c ++ " | " ++ String.intercalate " " (w :: ws)) }) := by
  unfold addproc
  rw [h]
  cases hc : J.command with
  | none => simp only [hc, mkcommand_first]
  | some c => simp only [hc, mkcommand_next]

theorem addprocs_spec (j : Nat) (calls : List (Int × List String)) :
    ∀ (t : JobTable) (J : job_t), t.get? j = some J → (∀ c ∈ calls, c.2 ≠ []) →
      ∃ t1 J1, addprocs t j calls = some t1 ∧ t1.get? j = some J1 ∧
        J1.proc = J.proc ++
          calls.map (fun c => { pid := c.1, state := State.RUNNING, exitcode := -1 }) ∧
        J1.pgid = J.pgid ∧ J1.state = J.state ∧ J1.tmodes = J.tmodes ∧
        (∀ i, i ≠ j → t1.get? i = t.get? i) ∧
        (∀ c0, J.command = some c0 →
          J1.command = some (String.intercalate.go c0 " | "
            (calls.map (fun c => String.intercalate " " c.2)))) ∧
        (J.command = none → calls ≠ [] →
          J1.command = some (spec_command (calls.map (fun c => c.2)))) := by
  induction calls with
  | nil =>
    intro t J h _
    exact ⟨t, J, rfl, h, by simp, rfl, rfl, rfl, fun _ _ => rfl,
      fun c0 hc => by simpa [String.intercalate.go] using hc, fun _ hne => absurd rfl hne⟩
  | cons call rest ih =>
    intro t J h hargv
    obtain ⟨pid, argv⟩ := call
    have hne : argv ≠ [] := hargv (pid, argv) (List.mem_cons_self _ _)
    obtain ⟨w, ws, rfl⟩ : ∃ w ws, argv = w :: ws := by
      cases argv with
      | nil => exact absurd rfl hne
      | cons w ws => exact ⟨w, ws, rfl⟩
    have hstep := addproc_step t j J pid w ws h
    generalize hJ2 : ({ J with
        proc := J.proc ++ [{ pid := pid, state := State.RUNNING, exitcode := -1 }],
        command := some (match J.command with
          | none => String.intercalate " " (w :: ws)
          | some c => c ++ " | " ++ String.intercalate " " (w :: ws)) } : job_t) = J2
      at hstep
    have hproc : J2.proc =
        J.proc ++ [{ pid := pid, state := State.RUNNING, exitcode := -1 }] := by
      rw [← hJ2]
    have hcmd : J2.command = some (match J.command with
          | none => String.intercalate " " (w :: ws)
          | some c => c ++ " | " ++ String.intercalate " " (w :: ws)) := by
      rw [← hJ2]
    have hpg : J2.pgid = J.pgid ∧ J2.state = J.state ∧ J2.tmodes = J.tmodes := by
      rw [← hJ2]
      exact ⟨rfl, rfl, rfl⟩
    obtain ⟨t1, J1, h1, h2, h3, h4, h5, h6, h7, h8, _⟩ :=
      ih (t.set j J2) J2 (get_set_self t j J2 J h)
        (fun c hc => hargv c (List.mem_cons_of_mem _ hc))
    refine ⟨t1, J1, ?_, h2, ?_, ?_, ?_, ?_, ?_, ?_, ?_⟩
    · simp only [addprocs, hstep]
      exact h1
    · rw [h3, hproc]
      simp
    · rw [h4, hpg.1]
    · rw [h5, hpg.2.1]
    · rw [h6, hpg.2.2]
    · intro i hi
      rw [h7 i hi, get_set_ne t i j _ hi]
    · intro c0 hc
      rw [hc] at hcmd
      rw [h8 _ hcmd]
      rfl
    · intro hc _
      rw [hc] at hcmd
      rw [h8 _ hcmd]
      simp only [spec_command, List.map_cons, List.map_map, Function.comp_def]
      rfl

theorem addjob_get (tm : Nat) (t : JobTable) (pgid : Int) (bg : Bool) :
    (addjob tm t pgid bg).1.get? (addjob tm t pgid bg).2 = some (fresh_job tm pgid) := by
  cases bg with
  | false => rfl
  | true =>
    obtain ⟨_, ⟨J0, h2, _⟩, _⟩ := allocjob_spec t
    simp only [addjob, if_true]
    exact get_set_self _ _ _ J0 h2

/-- C11. Command text built by `addproc`. A job is created by `addjob(pgid, bg)` in slot
`j` and extended by `addproc(j, pid_1, argv_1)`, .., `addproc(j, pid_k, argv_k)`, each
`argv_i` a non-empty list of words. All these calls return; afterwards the job has exactly
the `k` processes with the given pids in call order, each RUNNING with exit status `-1`
(unresolved), it keeps the pgid and the state RUNNING given by `addjob`, the other slots
are as `addjob` left them, and `jobcmd(j)` is the words of each `argv_i` joined by `" "`,
the `k` stage strings joined by `" | "` (for `k = 0` it is still `NULL`). -/
theorem addproc_builds_command (tm : Nat) (t : JobTable) (pgid : Int) (bg : Bool)
    (calls : List (Int × List String)) (hargv : ∀ c ∈ calls, c.2 ≠ []) :
    ∃ t1 J,
      addprocs (addjob tm t pgid bg).1 (addjob tm t pgid bg).2 calls = some t1 ∧
      t1.get? (addjob tm t pgid bg).2 = some J ∧
      J.proc = calls.map (fun c => { pid := c.1, state := State.RUNNING, exitcode := -1 }) ∧
      J.proc.length = calls.length ∧
      J.pgid = pgid ∧ J.state = State.RUNNING ∧
      jobcmd t1 (addjob tm t pgid bg).2 =
        some (if calls = [] then none else some (spec_command (calls.map (fun c => c.2)))) ∧
      ∀ i, i ≠ (addjob tm t pgid bg).2 → t1.get? i = (addjob tm t pgid bg).1.get? i := by
  obtain ⟨t1, J, h1, h2, h3, h4, h5, _, h7, _, h9⟩ :=
    addprocs_spec (addjob tm t pgid bg).2 calls (addjob tm t pgid bg).1 (fresh_job tm pgid)
      (addjob_get tm t pgid bg) hargv
  have hproc : J.proc =
      calls.map (fun c => { pid := c.1, state := State.RUNNING, exitcode := -1 }) := by
    rw [h3]
    rfl
  refine ⟨t1, J, h1, h2, hproc, ?_, h4, h5, ?_, h7⟩
  · rw [hproc, List.length_map]
  · simp only [jobcmd, h2]
    by_cases hc : calls = []
    · subst hc
      simp only [addprocs, Option.some.injEq] at h1
      rw [← h1, addjob_get] at h2
      simp only [Option.some.injEq] at h2
      rw [if_pos rfl, ← h2]
      rfl
    · rw [if_neg hc, h9 rfl hc]

/-- C11 at a concrete job: `cat -n | tr a b` launched in the background of the initial
table, pids 100 and 101. -/
theorem addproc_builds_command_witness :
    ∃ t1 J,
      addprocs (addjob 0 initjobs 100 true).1 (addjob 0 initjobs 100 true).2
        [(100, ["cat", "-n"]), (101, ["tr", "a", "b"])] = some t1 ∧
      t1.get? (addjob 0 initjobs 100 true).2 = some J ∧
      J.proc = [{ pid := 100, state := State.RUNNING, exitcode := -1 },
                { pid := 101, state := State.RUNNING, exitcode := -1 }] ∧
      J.proc.length = 2 ∧
      J.pgid = 100 ∧ J.state = State.RUNNING ∧
      jobcmd t1 (addjob 0 initjobs 100 true).2 = some (some "cat -n | tr a b") ∧
      ∀ i, i ≠ (addjob 0 initjobs 100 true).2 →
        t1.get? i = (addjob 0 initjobs 100 true).1.get? i :=
  addproc_builds_command 0 initjobs 100 true
    [(100, ["cat", "-n"]), (101, ["tr", "a", "b"])] (by decide)

end Shell
